import Mathlib

/-!
Shallow embedding of the quantum state-vector simulator core
(`src/quantum/state.ts`, `src/quantum/gates.ts`, `src/quantum/operations.ts`,
`src/quantum/simulator.ts`).

Conventions of the embedding:
* JavaScript floating-point numbers are modelled by exact reals (`ℝ`), mathjs
  complex values by `ℂ`.  Tolerance clauses of the specification (1e-9) become
  exact equalities.
* A method that can `throw` is modelled as a function into `Except QError _`;
  the `QError` constructors correspond one-to-one to the `throw new Error(...)`
  sites of the source.
* In-place mutation of `this` in the simulator class is modelled by explicit
  state passing on a `SimState` record; each simulator method returns the
  updated record together with `none` (normal return) or `some e` (the method
  threw `e` after performing whatever mutations preceded the throw).
* `Math.random()` is modelled by an explicit `random : ℝ` argument.
* Array reads `this.amplitudes[i]` / `getAmplitude(i)` that occur at indices
  the surrounding loop already keeps in range are modelled with `List.getD`
  (default `0`); the bounds-checked public accessors are modelled separately.
* JavaScript bitwise expressions are translated with JavaScript operator
  precedence (`&` binds tighter than `|`); `x & ~m` with `m` a one-bit mask is
  `Nat.ldiff x m`.
-/

noncomputable section

namespace QCS

/-- The error conditions thrown by the core, one constructor per `throw` site.
`targetCountMismatch` and `unsupportedGateArity` carry the numbers that the
source interpolates into the message. -/
inductive QError where
  | maxQubitsExceeded
  | dimensionMismatch
  | zeroState
  | indexOutOfRange
  | gateArityMismatch
  | qubitIndexOutOfRange
  | invalidQubitPair
  | targetCountMismatch (required provided : ℕ)
  | unsupportedGateArity (arity : ℕ)
  | qubitCountMismatch
  | invalidQubitCount
  deriving DecidableEq

/-- `Math.pow(Number(abs(amp)), 2)`: the squared magnitude of one amplitude. -/
def ampProb (a : ℂ) : ℝ := Complex.abs a ^ 2

/-- The sum of squared magnitudes of an amplitude vector (the reduce inside
`QuantumState.normalize`, before the square root is taken). -/
def normSqSum (l : List ℂ) : ℝ := (l.map ampProb).sum

/-- `QuantumState.normalize`: divides every amplitude by the Euclidean norm,
throwing when the norm is zero. -/
def normalizeAmps (l : List ℂ) : Except QError (List ℂ) :=
  let norm := Real.sqrt (normSqSum l)
  if norm = 0 then .error .zeroState
  else .ok (l.map fun a => a * ((1 / norm : ℝ) : ℂ))

/-- The data held by a `QuantumState` object. -/
structure QuantumState where
  numQubits : ℕ
  amplitudes : List ℂ

/-- The default `|0...0⟩` amplitude vector: `new Array(numStates).fill(complex(0))`
followed by `this.amplitudes[0] = complex(1)`. -/
def defaultAmps (numStates : ℕ) : List ℂ :=
  (List.replicate numStates 0).set 0 1

/-- The `QuantumState` constructor: rejects more than 5 qubits, checks the
length of a supplied initial vector, defaults to `|0...0⟩`, then normalizes. -/
def QuantumState.make (numQubits : ℕ) (initialState : Option (List ℂ)) :
    Except QError QuantumState :=
  if numQubits > 5 then .error .maxQubitsExceeded
  else
    let numStates := 2 ^ numQubits
    match initialState with
    | some init =>
        if init.length ≠ numStates then .error .dimensionMismatch
        else (normalizeAmps init).map fun l => ⟨numQubits, l⟩
    | none => (normalizeAmps (defaultAmps numStates)).map fun l => ⟨numQubits, l⟩

/-- Unchecked amplitude read (used by the gate/measurement loops, whose indices
are always in range; the source reads through the checked `getAmplitude`). -/
def QuantumState.amp (s : QuantumState) (i : ℕ) : ℂ := s.amplitudes.getD i 0

/-- `getAmplitude` with its bounds check. -/
def QuantumState.getAmplitude (s : QuantumState) (basisState : ℕ) : Except QError ℂ :=
  if basisState ≥ s.amplitudes.length then .error .indexOutOfRange
  else .ok (s.amplitudes.getD basisState 0)

/-- `setAmplitude`: bounds check, write, renormalize the whole vector. -/
def QuantumState.setAmplitude (s : QuantumState) (basisState : ℕ) (amplitude : ℂ) :
    Except QError QuantumState :=
  if basisState ≥ s.amplitudes.length then .error .indexOutOfRange
  else (normalizeAmps (s.amplitudes.set basisState amplitude)).map
    fun l => ⟨s.numQubits, l⟩

/-- `getMeasurementProbabilities`: `|amplitude|²` for every basis index. -/
def QuantumState.getMeasurementProbabilities (s : QuantumState) : List ℝ :=
  s.amplitudes.map ampProb

/-- The bit of basis index `i` belonging to `qubitIndex`:
`(i >> (numQubits - 1 - qubitIndex)) & 1` (qubit 0 is the most significant bit). -/
def bitAt (numQubits i qubitIndex : ℕ) : ℕ :=
  (i >>> (numQubits - 1 - qubitIndex)) &&& 1

/-- The accumulator of `getQubitMeasurementProbabilities`: the loop adds
`|amplitudes[i]|²` to `prob0` or `prob1` according to `bitAt`; the total for
bit value `b` is the sum over the indices whose bit equals `b`. -/
def QuantumState.marginal (s : QuantumState) (qubitIndex b : ℕ) : ℝ :=
  (((List.range s.amplitudes.length).filter
      fun i => bitAt s.numQubits i qubitIndex = b).map
    fun i => ampProb (s.amp i)).sum

/-- `getQubitMeasurementProbabilities`: bounds-checks the qubit index, then
returns the two marginal probabilities `(prob0, prob1)`. -/
def QuantumState.getQubitMeasurementProbabilities (s : QuantumState) (qubitIndex : ℕ) :
    Except QError (ℝ × ℝ) :=
  if qubitIndex ≥ s.numQubits then .error .indexOutOfRange
  else .ok (s.marginal qubitIndex 0, s.marginal qubitIndex 1)

/-- A gate record: name, display symbol, arity, matrix (from `src/types` and
`src/quantum/gates.ts`). -/
structure QuantumGate where
  name : String
  symbol : String
  qubits : ℕ
  matrix : List (List ℂ)

/-- `gate.matrix[r][c]` (all reads in the source are in range). -/
def QuantumGate.entry (g : QuantumGate) (r c : ℕ) : ℂ :=
  (g.matrix.getD r []).getD c 0

/-- `const SQRT2 = Math.sqrt(2)`. -/
def SQRT2 : ℝ := Real.sqrt 2

/-- The Hadamard gate of `gates.ts`. -/
def HadamardGate : QuantumGate :=
  ⟨"Hadamard", "H", 1,
    [[((1 / SQRT2 : ℝ) : ℂ), ((1 / SQRT2 : ℝ) : ℂ)],
     [((1 / SQRT2 : ℝ) : ℂ), ((-1 / SQRT2 : ℝ) : ℂ)]]⟩

/-- The Pauli-X gate of `gates.ts`. -/
def PauliXGate : QuantumGate :=
  ⟨"Pauli-X", "X", 1, [[0, 1], [1, 0]]⟩

/-- The Pauli-Y gate of `gates.ts` (`complex(0, -1)` and `complex(0, 1)`). -/
def PauliYGate : QuantumGate :=
  ⟨"Pauli-Y", "Y", 1, [[0, -Complex.I], [Complex.I, 0]]⟩

/-- The Pauli-Z gate of `gates.ts`. -/
def PauliZGate : QuantumGate :=
  ⟨"Pauli-Z", "Z", 1, [[1, 0], [0, -1]]⟩

/-- The CNOT gate of `gates.ts`. -/
def CNOTGate : QuantumGate :=
  ⟨"CNOT", "CX", 2,
    [[1, 0, 0, 0], [0, 1, 0, 0], [0, 0, 0, 1], [0, 0, 1, 0]]⟩

namespace QuantumOperations

/-- `QuantumOperations.applySingleQubitGate`.  For each basis index the source
branches on the target-qubit bit and combines the pair of amplitudes differing
only in that bit with row 0 (bit 0) or row 1 (bit 1) of the matrix; the two
branches are the single expression below with the row given by the bit. -/
def applySingleQubitGate (state : QuantumState) (gate : QuantumGate)
    (targetQubit : ℕ) : Except QError QuantumState :=
  if gate.qubits ≠ 1 then .error .gateArityMismatch
  else if targetQubit ≥ state.numQubits then .error .indexOutOfRange
  else
    let numQubits := state.numQubits
    let numStates := 2 ^ numQubits
    let mask := 1 <<< (numQubits - 1 - targetQubit)
    let newAmplitudes : List ℂ := List.ofFn fun i : Fin numStates =>
      let qubitBit := bitAt numQubits i.val targetQubit
      let state0 := Nat.ldiff i.val mask
      let state1 := i.val ||| mask
      gate.entry qubitBit 0 * state.amp state0 + gate.entry qubitBit 1 * state.amp state1
    QuantumState.make numQubits (some newAmplitudes)

/-- `QuantumOperations.applyTwoQubitGate`.  The `states` array is translated
with JavaScript operator precedence, under which `&` binds tighter than `|`:
the second source entry `i & ~c | t` parses as `(i & ~c) | t`, and the third
source entry `i | c & ~t` parses as `i | (c & ~t)` -- not the
`(i | c) & ~t` that its inline comment suggests. -/
def applyTwoQubitGate (state : QuantumState) (gate : QuantumGate)
    (controlQubit targetQubit : ℕ) : Except QError QuantumState :=
  if gate.qubits ≠ 2 then .error .gateArityMismatch
  else if controlQubit ≥ state.numQubits ∨ targetQubit ≥ state.numQubits then
    .error .qubitIndexOutOfRange
  else if controlQubit = targetQubit then .error .invalidQubitPair
  else
    let numQubits := state.numQubits
    let numStates := 2 ^ numQubits
    let cMask := 1 <<< (numQubits - 1 - controlQubit)
    let tMask := 1 <<< (numQubits - 1 - targetQubit)
    let newAmplitudes : List ℂ := List.ofFn fun i : Fin numStates =>
      let controlBit := bitAt numQubits i.val controlQubit
      let targetBit := bitAt numQubits i.val targetQubit
      let twoQubitState := (controlBit <<< 1) ||| targetBit
      let states : List ℕ :=
        [Nat.ldiff (Nat.ldiff i.val cMask) tMask,
         Nat.ldiff i.val cMask ||| tMask,
         i.val ||| Nat.ldiff cMask tMask,
         (i.val ||| cMask) ||| tMask]
      ((List.range 4).map fun j =>
        gate.entry twoQubitState j * state.amp (states.getD j 0)).sum
    QuantumState.make numQubits (some newAmplitudes)

/-- `QuantumOperations.applyGate`: arity dispatch with target-count check. -/
def applyGate (state : QuantumState) (gate : QuantumGate) (targetQubits : List ℕ) :
    Except QError QuantumState :=
  if targetQubits.length ≠ gate.qubits then
    .error (.targetCountMismatch gate.qubits targetQubits.length)
  else if gate.qubits = 1 then
    applySingleQubitGate state gate (targetQubits.getD 0 0)
  else if gate.qubits = 2 then
    applyTwoQubitGate state gate (targetQubits.getD 0 0) (targetQubits.getD 1 0)
  else .error (.unsupportedGateArity gate.qubits)

/-- `QuantumOperations.measureQubit`, with `Math.random()` passed in as
`random`.  Outcome 0 exactly when `random < prob0`; amplitudes inconsistent
with the outcome are zeroed, the rest are divided by the square root of the
probability of the outcome, and the result goes through the (renormalizing)
`QuantumState` constructor. -/
def measureQubit (state : QuantumState) (qubitIndex : ℕ) (random : ℝ) :
    Except QError (ℕ × QuantumState) :=
  match state.getQubitMeasurementProbabilities qubitIndex with
  | .error e => .error e
  | .ok (prob0, prob1) =>
      let result : ℕ := if random < prob0 then 0 else 1
      let normalizationFactor :=
        if result = 0 then Real.sqrt prob0 else Real.sqrt prob1
      let numStates := 2 ^ state.numQubits
      let newAmplitudes : List ℂ := List.ofFn fun i : Fin numStates =>
        if bitAt state.numQubits i.val qubitIndex = result
        then state.amp i.val * ((1 / normalizationFactor : ℝ) : ℂ)
        else 0
      (QuantumState.make state.numQubits (some newAmplitudes)).map
        fun ns => (result, ns)

/-- The cumulative-probability walk of `measureAll`: starting from a running
sum `acc` at index `idx`, return the first index whose cumulative sum reaches
`random`; if the loop never breaks, `measuredState` stays `0`. -/
def cumulativeSelect (probabilities : List ℝ) (random acc : ℝ) (idx : ℕ) : ℕ :=
  match probabilities with
  | [] => 0
  | p :: rest =>
      if random ≤ acc + p then idx
      else cumulativeSelect rest random (acc + p) (idx + 1)

/-- `QuantumOperations.measureAll`, with `Math.random()` passed in as
`random`: selects a basis state by the cumulative walk, decomposes it into
per-qubit bits, and returns the bits with the (pre-collapse) probabilities. -/
def measureAll (state : QuantumState) (random : ℝ) : List ℕ × List ℝ :=
  let probabilities := state.getMeasurementProbabilities
  let measuredState := cumulativeSelect probabilities random 0 0
  let results := (List.range state.numQubits).map
    fun i => bitAt state.numQubits measuredState i
  (results, probabilities)

/-- `complex(amplitudes1[i].re, -amplitudes1[i].im)`: the complex conjugate. -/
def conjAmp (a : ℂ) : ℂ := ⟨a.re, -a.im⟩

/-- `Math.abs(innerProduct as any)`: JavaScript `Math.abs` coerces the mathjs
`Complex` object through `ToNumber` (the object has no numeric `valueOf`, so
its `toString` is parsed), which produces the absolute value of the real part
when the imaginary part is zero and `NaN` otherwise (the string then contains
an `i` term).  `NaN` is modelled as `none`. -/
def jsAbsNumber (z : ℂ) : Option ℝ :=
  if z.im = 0 then some |z.re| else none

/-- `QuantumOperations.calculateFidelity`.  The final statement of the source
is `Math.pow(Math.abs(innerProduct as any), 2)`: the coerced absolute value
(`jsAbsNumber`, `NaN` as `none`) is squared; `Math.pow(NaN, 2)` is `NaN`. -/
def calculateFidelity (state1 state2 : QuantumState) : Except QError (Option ℝ) :=
  if state1.numQubits ≠ state2.numQubits then .error .qubitCountMismatch
  else
    let amplitudes1 := state1.amplitudes
    let amplitudes2 := state2.amplitudes
    let innerProduct : ℂ :=
      ((List.range amplitudes1.length).map fun i =>
        conjAmp (amplitudes1.getD i 0) * amplitudes2.getD i 0).sum
    .ok ((jsAbsNumber innerProduct).map fun a => a ^ 2)

end QuantumOperations

/-! ### The simulator session (`src/quantum/simulator.ts`)

The mutable fields of the `QuantumSimulator` class become the `SimState`
record.  `clone()` calls on already-normalized states produce value-equal
states, so in this pure embedding history entries are the state values
themselves.  The log line of `measureQubit` interpolates
`probability.toFixed(4)`; decimal formatting of a real number is not modelled
and the probability is omitted from the modelled line (no claim depends on the
text of measurement log lines). -/

/-- `Applied {gate.name} gate to qubit(s): q{i}, q{j}, ...` -/
def appliedLine (gate : QuantumGate) (targetQubits : List ℕ) : String :=
  "Applied " ++ gate.name ++ " gate to qubit(s): " ++
    String.intercalate ", " (targetQubits.map fun q => "q" ++ toString q)

/-- The message text of each error (where the source interpolates an index
that the `QError` constructor does not carry, the interpolation is elided; no
claim depends on those log texts). -/
def QError.message : QError → String
  | .maxQubitsExceeded => "Maximum 5 qubits supported"
  | .dimensionMismatch => "Initial state length mismatch"
  | .zeroState => "Cannot normalize zero state"
  | .indexOutOfRange => "Index out of range"
  | .gateArityMismatch => "Gate arity mismatch"
  | .qubitIndexOutOfRange => "Qubit indices out of range"
  | .invalidQubitPair => "Control and target qubits must be different"
  | .targetCountMismatch required provided =>
      "Gate requires " ++ toString required ++ " target qubits, but " ++
        toString provided ++ " provided"
  | .unsupportedGateArity arity =>
      "Gates with " ++ toString arity ++ " qubits not supported"
  | .qubitCountMismatch => "States must have the same number of qubits"
  | .invalidQubitCount => "Number of qubits must be between 1 and 5"

/-- `Error applying {gate.name} gate: {errorMessage}` -/
def errorLine (gate : QuantumGate) (e : QError) : String :=
  "Error applying " ++ gate.name ++ " gate: " ++ e.message

/-- `Initialized {n}-qubit system in |0...0⟩ state` -/
def initLine (numQubits : ℕ) : String :=
  "Initialized " ++ toString numQubits ++ "-qubit system in |" ++
    String.mk (List.replicate numQubits '0') ++ "⟩ state"

/-- `Measured qubit {q}: {r} (probability: ...)` (probability text elided). -/
def measuredLine (qubitIndex result : ℕ) : String :=
  "Measured qubit " ++ toString qubitIndex ++ ": " ++ toString result

/-- `Measured all qubits: |{bits}⟩` -/
def measureAllLine (results : List ℕ) : String :=
  "Measured all qubits: |" ++ String.join (results.map toString) ++ "⟩"

/-- The mutable state of a `QuantumSimulator` instance. -/
structure SimState where
  numQubits : ℕ
  currentState : QuantumState
  stateHistory : List QuantumState
  executionLog : List String

/-- `QuantumSimulator.reset`: fresh `|0...0⟩` state, history truncated to the
initial snapshot, log truncated to the initialization line.  A construction
error propagates before any field is assigned. -/
def simReset (sim : SimState) : SimState × Option QError :=
  match QuantumState.make sim.numQubits none with
  | .error e => (sim, some e)
  | .ok s =>
      ({ sim with currentState := s, stateHistory := [s],
                  executionLog := [initLine sim.numQubits] }, none)

/-- The `QuantumSimulator` constructor: validates `1 ≤ n ≤ 5`, then resets. -/
def SimState.init (numQubits : ℕ) : Except QError SimState :=
  if numQubits < 1 ∨ numQubits > 5 then .error .invalidQubitCount
  else
    match simReset ⟨numQubits, ⟨numQubits, []⟩, [], []⟩ with
    | (sim, none) => .ok sim
    | (_, some e) => .error e

/-- `QuantumSimulator.applyGate`: on success appends the new state and a
descriptive line; on failure appends an error line and rethrows (the log entry
is retained, the history is not extended). -/
def simApplyGate (sim : SimState) (gate : QuantumGate) (targetQubits : List ℕ) :
    SimState × Option QError :=
  match QuantumOperations.applyGate sim.currentState gate targetQubits with
  | .ok newState =>
      ({ sim with currentState := newState,
                  stateHistory := sim.stateHistory ++ [newState],
                  executionLog := sim.executionLog ++ [appliedLine gate targetQubits] },
       none)
  | .error e =>
      ({ sim with executionLog := sim.executionLog ++ [errorLine gate e] }, some e)

/-- `QuantumSimulator.measureQubit`: queries the marginals (an out-of-range
index throws here, before any mutation), delegates to the operations engine,
then records the collapsed state and a log line. -/
def simMeasureQubit (sim : SimState) (qubitIndex : ℕ) (random : ℝ) :
    SimState × Option QError :=
  match sim.currentState.getQubitMeasurementProbabilities qubitIndex with
  | .error e => (sim, some e)
  | .ok _probs =>
      match QuantumOperations.measureQubit sim.currentState qubitIndex random with
      | .error e => (sim, some e)
      | .ok (result, newState) =>
          ({ sim with currentState := newState,
                      stateHistory := sim.stateHistory ++ [newState],
                      executionLog := sim.executionLog ++ [measuredLine qubitIndex result] },
           none)

/-- `QuantumSimulator.measureAll`: samples a full-register outcome, builds the
collapsed basis state explicitly, records it and a log line. -/
def simMeasureAll (sim : SimState) (random : ℝ) : SimState × Option QError :=
  let p := QuantumOperations.measureAll sim.currentState random
  let results := p.1
  let finalStateIndex :=
    (results.enum.map fun q => q.2 * 2 ^ (sim.numQubits - 1 - q.1)).sum
  let collapsedAmplitudes := (List.replicate (2 ^ sim.numQubits) (0 : ℂ)).set finalStateIndex 1
  match QuantumState.make sim.numQubits (some collapsedAmplitudes) with
  | .error e => (sim, some e)
  | .ok ns =>
      ({ sim with currentState := ns,
                  stateHistory := sim.stateHistory ++ [ns],
                  executionLog := sim.executionLog ++ [measureAllLine results] },
       none)

/-- One session operation (measurements carry their random sample). -/
inductive SimOp where
  | applyGate (gate : QuantumGate) (targetQubits : List ℕ)
  | measureQubit (qubitIndex : ℕ) (random : ℝ)
  | measureAll (random : ℝ)
  | reset

/-- Dispatch one session operation. -/
def simStep (sim : SimState) : SimOp → SimState × Option QError
  | .applyGate gate targetQubits => simApplyGate sim gate targetQubits
  | .measureQubit qubitIndex random => simMeasureQubit sim qubitIndex random
  | .measureAll random => simMeasureAll sim random
  | .reset => simReset sim

/-- Run a sequence of session operations, counting the gate applications that
failed since the last successful reset (each such failure leaves an error log
line without a history entry). -/
def simRunCount (sim : SimState) (failed : ℕ) : List SimOp → SimState × ℕ
  | [] => (sim, failed)
  | op :: rest =>
      let r := simStep sim op
      let failed2 : ℕ :=
        match op with
        | .reset => if r.2 = none then 0 else failed
        | .applyGate _ _ => if r.2 = none then failed else failed + 1
        | _ => failed
      simRunCount r.1 failed2 rest

/-- One scheduled circuit element (`CircuitElement` of `src/types`). -/
structure CircuitElement where
  gate : QuantumGate
  targetQubits : List ℕ
  position : ℤ

/-- `[...circuit].sort((a, b) => a.position - b.position)`: JavaScript
`Array.prototype.sort` is a stable sort, and that comparator orders by
`position` ascending; `List.mergeSort` is the stable ascending sort. -/
def sortCircuit (circuit : List CircuitElement) : List CircuitElement :=
  circuit.mergeSort fun a b => a.position ≤ b.position

/-- The record returned by `executeCircuit`. -/
structure SimulationResult where
  finalState : QuantumState
  measurementProbabilities : List ℝ
  stateHistory : List QuantumState
  executionLog : List String

/-- The `for` loop of `executeCircuit`: apply elements in order, stopping at
(and propagating) the first failure, whose log entry is retained. -/
def execList (sim : SimState) : List CircuitElement → SimState × Option QError
  | [] => (sim, none)
  | e :: rest =>
      match simApplyGate sim e.gate e.targetQubits with
      | (sim2, none) => execList sim2 rest
      | (sim2, some err) => (sim2, some err)

/-- `QuantumSimulator.executeCircuit`: stable-sorts by position, applies each
element via `applyGate`, and returns the final state, its probability vector,
and the full (session-long) history and log. -/
def executeCircuit (sim : SimState) (circuit : List CircuitElement) :
    SimState × Except QError SimulationResult :=
  match execList sim (sortCircuit circuit) with
  | (sim2, none) =>
      (sim2, .ok ⟨sim2.currentState, sim2.currentState.getMeasurementProbabilities,
                  sim2.stateHistory, sim2.executionLog⟩)
  | (sim2, some e) => (sim2, .error e)

/-- Pure composition of `QuantumOperations.applyGate` over a list of circuit
elements (the effect of `executeCircuit` on the current state alone). -/
def applyAll (s : QuantumState) : List CircuitElement → Except QError QuantumState
  | [] => .ok s
  | e :: rest =>
      match QuantumOperations.applyGate s e.gate e.targetQubits with
      | .ok s2 => applyAll s2 rest
      | .error err => .error err

/-! ### Basic lemmas about amplitudes and normalization -/

lemma ampProb_nonneg (a : ℂ) : 0 ≤ ampProb a := sq_nonneg _

lemma ampProb_eq_normSq (a : ℂ) : ampProb a = Complex.normSq a := Complex.sq_abs a

@[simp] lemma ampProb_zero : ampProb 0 = 0 := by simp [ampProb]

@[simp] lemma ampProb_one : ampProb 1 = 1 := by simp [ampProb]

@[simp] lemma ampProb_ofReal (r : ℝ) : ampProb (r : ℂ) = r ^ 2 := by
  simp [ampProb, Complex.abs_ofReal, sq_abs]

lemma ampProb_mul (a b : ℂ) : ampProb (a * b) = ampProb a * ampProb b := by
  simp [ampProb, map_mul, mul_pow]

@[simp] lemma normSqSum_nil : normSqSum [] = 0 := rfl

@[simp] lemma normSqSum_cons (a : ℂ) (l : List ℂ) :
    normSqSum (a :: l) = ampProb a + normSqSum l := by
  simp [normSqSum]

lemma normSqSum_nonneg (l : List ℂ) : 0 ≤ normSqSum l := by
  induction l with
  | nil => simp
  | cons a t ih => simpa using add_nonneg (ampProb_nonneg a) ih

lemma normSqSum_replicate_zero (k : ℕ) : normSqSum (List.replicate k (0 : ℂ)) = 0 := by
  simp [normSqSum, List.map_replicate, List.sum_replicate]

lemma normSqSum_map_mul_ofReal (l : List ℂ) (c : ℝ) :
    normSqSum (l.map fun a => a * (c : ℂ)) = normSqSum l * c ^ 2 := by
  induction l with
  | nil => simp
  | cons a t ih =>
      simp only [List.map_cons, normSqSum_cons, ih, ampProb_mul, ampProb_ofReal]
      ring

lemma sqrt_normSqSum_eq_zero_iff (l : List ℂ) :
    Real.sqrt (normSqSum l) = 0 ↔ normSqSum l = 0 := by
  rw [Real.sqrt_eq_zero (normSqSum_nonneg l)]

lemma normalizeAmps_of_ne (l : List ℂ) (h : normSqSum l ≠ 0) :
    normalizeAmps l =
      .ok (l.map fun a => a * ((1 / Real.sqrt (normSqSum l) : ℝ) : ℂ)) := by
  rw [normalizeAmps]
  simp only [if_neg (fun hc => h ((sqrt_normSqSum_eq_zero_iff l).mp hc))]

lemma normalizeAmps_of_eq_zero (l : List ℂ) (h : normSqSum l = 0) :
    normalizeAmps l = .error .zeroState := by
  simp [normalizeAmps, h]

lemma normalizeAmps_of_one (l : List ℂ) (h : normSqSum l = 1) :
    normalizeAmps l = .ok l := by
  rw [normalizeAmps_of_ne l (by rw [h]; norm_num), h, Real.sqrt_one]
  simp

lemma normalizeAmps_ok (l l2 : List ℂ) (h : normalizeAmps l = .ok l2) :
    normSqSum l2 = 1 ∧ l2.length = l.length := by
  by_cases hz : normSqSum l = 0
  · rw [normalizeAmps_of_eq_zero l hz] at h
    exact absurd h (by simp)
  · rw [normalizeAmps_of_ne l hz] at h
    have hl2 : l2 = l.map fun a => a * ((1 / Real.sqrt (normSqSum l) : ℝ) : ℂ) := by
      injection h with h2
      exact h2.symm
    subst hl2
    refine ⟨?_, List.length_map l _⟩
    rw [normSqSum_map_mul_ofReal, div_pow, one_pow,
      Real.sq_sqrt (normSqSum_nonneg l), mul_one_div, div_self hz]

/-! ### Lemmas about the `QuantumState` constructor -/

lemma defaultAmps_succ (k : ℕ) : defaultAmps (k + 1) = 1 :: List.replicate k 0 := by
  rw [defaultAmps, List.replicate_succ, List.set_cons_zero]

lemma normSqSum_defaultAmps (m : ℕ) (h : 0 < m) : normSqSum (defaultAmps m) = 1 := by
  obtain ⟨k, rfl⟩ := Nat.exists_eq_add_of_lt h
  rw [zero_add, defaultAmps_succ, normSqSum_cons, normSqSum_replicate_zero,
    ampProb_one, add_zero]

lemma length_defaultAmps (m : ℕ) : (defaultAmps m).length = m := by
  rw [defaultAmps, List.length_set, List.length_replicate]

lemma make_of_normalized (n : ℕ) (l : List ℂ) (h5 : n ≤ 5)
    (hlen : l.length = 2 ^ n) (h1 : normSqSum l = 1) :
    QuantumState.make n (some l) = .ok ⟨n, l⟩ := by
  rw [QuantumState.make, if_neg (by omega : ¬ n > 5)]
  show (if l.length ≠ 2 ^ n then (.error .dimensionMismatch : Except QError QuantumState)
        else (normalizeAmps l).map fun l2 => ⟨n, l2⟩) = .ok ⟨n, l⟩
  rw [if_neg (by simp [hlen]), normalizeAmps_of_one l h1]
  rfl

lemma make_none_eval (n : ℕ) (h5 : n ≤ 5) :
    QuantumState.make n none = .ok ⟨n, defaultAmps (2 ^ n)⟩ := by
  rw [QuantumState.make, if_neg (by omega : ¬ n > 5)]
  show ((normalizeAmps (defaultAmps (2 ^ n))).map fun l2 => (⟨n, l2⟩ : QuantumState))
      = .ok ⟨n, defaultAmps (2 ^ n)⟩
  rw [normalizeAmps_of_one _ (normSqSum_defaultAmps _ (Nat.pos_pow_of_pos n (by norm_num)))]
  rfl

lemma make_ok (n : ℕ) (init : Option (List ℂ)) (s : QuantumState)
    (h : QuantumState.make n init = .ok s) :
    s.numQubits = n ∧ s.amplitudes.length = 2 ^ n ∧ normSqSum s.amplitudes = 1 := by
  rw [QuantumState.make] at h
  by_cases h5 : n > 5
  · rw [if_pos h5] at h
    exact absurd h (by simp)
  · rw [if_neg h5] at h
    rcases init with _ | init
    · replace h : ((normalizeAmps (defaultAmps (2 ^ n))).map
          fun l2 => (⟨n, l2⟩ : QuantumState)) = .ok s := h
      rcases hn : normalizeAmps (defaultAmps (2 ^ n)) with e | l2
      · rw [hn] at h
        exact absurd h (by simp [Except.map])
      · rw [hn] at h
        simp only [Except.map] at h
        injection h with h
        obtain ⟨hnorm, hlen⟩ := normalizeAmps_ok _ _ hn
        subst h
        exact ⟨rfl, by rw [hlen, length_defaultAmps], hnorm⟩
    · replace h : (if init.length ≠ 2 ^ n
          then (.error .dimensionMismatch : Except QError QuantumState)
          else (normalizeAmps init).map fun l2 => ⟨n, l2⟩) = .ok s := h
      by_cases hl : init.length ≠ 2 ^ n
      · rw [if_pos hl] at h
        exact absurd h (by simp)
      · rw [if_neg hl] at h
        push_neg at hl
        rcases hn : normalizeAmps init with e | l2
        · rw [hn] at h
          exact absurd h (by simp [Except.map])
        · rw [hn] at h
          simp only [Except.map] at h
          injection h with h
          obtain ⟨hnorm, hlen⟩ := normalizeAmps_ok _ _ hn
          subst h
          exact ⟨rfl, by rw [hlen, hl], hnorm⟩

/-! ### Bridges between list sums and `Finset.range` sums -/

lemma sum_map_range {M : Type} [AddCommMonoid M] (n : ℕ) (f : ℕ → M) :
    ((List.range n).map f).sum = ∑ i ∈ Finset.range n, f i := by
  induction n with
  | zero => simp
  | succ k ih =>
      rw [List.range_succ, List.map_append, List.sum_append, Finset.sum_range_succ, ih]
      simp

lemma filter_map_sum {M : Type} [AddCommMonoid M] (l : List ℕ) (q : ℕ → Bool) (f : ℕ → M) :
    ((l.filter q).map f).sum = (l.map fun i => if q i then f i else 0).sum := by
  induction l with
  | nil => simp
  | cons a t ih => cases hq : q a <;> simp [List.filter_cons, hq, ih]

lemma sum_map_range_getD {α M : Type} [AddCommMonoid M] (l : List α) (d : α) (f : α → M) :
    ((List.range l.length).map fun i => f (l.getD i d)).sum = (l.map f).sum := by
  induction l with
  | nil => simp
  | cons a t ih =>
      rw [List.length_cons, List.range_succ_eq_map, List.map_cons, List.map_map,
        List.sum_cons, List.map_cons, List.sum_cons]
      have h1 : (a :: t).getD 0 d = a := rfl
      have h2 : List.map ((fun i => f ((a :: t).getD i d)) ∘ Nat.succ) (List.range t.length)
          = List.map (fun i => f (t.getD i d)) (List.range t.length) :=
        List.map_congr_left fun i _ => by simp [Function.comp]
      rw [h1, h2, ih]

lemma normSqSum_eq_range (l : List ℂ) :
    normSqSum l = ∑ i ∈ Finset.range l.length, ampProb (l.getD i 0) := by
  rw [normSqSum, ← sum_map_range_getD l 0 ampProb, sum_map_range]

lemma normSqSum_ofFn (N : ℕ) (F : ℕ → ℂ) :
    normSqSum (List.ofFn fun i : Fin N => F i.val) = ∑ k ∈ Finset.range N, ampProb (F k) := by
  rw [normSqSum, List.map_ofFn, List.sum_ofFn, ← Fin.sum_univ_eq_sum_range]
  rfl

/-! ### Marginal probabilities -/

lemma bitAt_lt_two (n i q : ℕ) : bitAt n i q < 2 := by
  rw [bitAt, Nat.and_one_is_mod]
  exact Nat.mod_lt _ (by norm_num)

lemma marginal_eq_sum (s : QuantumState) (q b : ℕ) :
    s.marginal q b = ∑ i ∈ Finset.range s.amplitudes.length,
      if bitAt s.numQubits i q = b then ampProb (s.amp i) else 0 := by
  rw [QuantumState.marginal, filter_map_sum, sum_map_range]
  simp

lemma marginal_partition (s : QuantumState) (q : ℕ) :
    s.marginal q 0 + s.marginal q 1 = normSqSum s.amplitudes := by
  rw [marginal_eq_sum, marginal_eq_sum, ← Finset.sum_add_distrib, normSqSum_eq_range]
  refine Finset.sum_congr rfl fun i _ => ?_
  have h2 : bitAt s.numQubits i q = 0 ∨ bitAt s.numQubits i q = 1 := by
    have := bitAt_lt_two s.numQubits i q
    omega
  rcases h2 with h2 | h2 <;> simp [h2, QuantumState.amp]

lemma marginal_nonneg (s : QuantumState) (q b : ℕ) : 0 ≤ s.marginal q b := by
  rw [marginal_eq_sum]
  refine Finset.sum_nonneg fun i _ => ?_
  by_cases hb : bitAt s.numQubits i q = b <;> simp [hb, ampProb_nonneg]

/-! ### Successful gate applications go through the constructor -/

lemma applySingleQubitGate_ok (state : QuantumState) (gate : QuantumGate) (t : ℕ)
    (s2 : QuantumState)
    (h : QuantumOperations.applySingleQubitGate state gate t = .ok s2) :
    ∃ l, QuantumState.make state.numQubits (some l) = .ok s2 := by
  rw [QuantumOperations.applySingleQubitGate] at h
  by_cases h1 : gate.qubits ≠ 1
  · rw [if_pos h1] at h
    exact absurd h (by simp)
  · rw [if_neg h1] at h
    by_cases h2 : t ≥ state.numQubits
    · rw [if_pos h2] at h
      exact absurd h (by simp)
    · rw [if_neg h2] at h
      exact ⟨_, h⟩

lemma applyTwoQubitGate_ok (state : QuantumState) (gate : QuantumGate) (c t : ℕ)
    (s2 : QuantumState)
    (h : QuantumOperations.applyTwoQubitGate state gate c t = .ok s2) :
    ∃ l, QuantumState.make state.numQubits (some l) = .ok s2 := by
  rw [QuantumOperations.applyTwoQubitGate] at h
  by_cases h1 : gate.qubits ≠ 2
  · rw [if_pos h1] at h
    exact absurd h (by simp)
  · rw [if_neg h1] at h
    by_cases h2 : c ≥ state.numQubits ∨ t ≥ state.numQubits
    · rw [if_pos h2] at h
      exact absurd h (by simp)
    · rw [if_neg h2] at h
      by_cases h3 : c = t
      · rw [if_pos h3] at h
        exact absurd h (by simp)
      · rw [if_neg h3] at h
        exact ⟨_, h⟩

lemma applyGate_ok (state : QuantumState) (gate : QuantumGate) (targets : List ℕ)
    (s2 : QuantumState)
    (h : QuantumOperations.applyGate state gate targets = .ok s2) :
    ∃ l, QuantumState.make state.numQubits (some l) = .ok s2 := by
  rw [QuantumOperations.applyGate] at h
  by_cases h1 : targets.length ≠ gate.qubits
  · rw [if_pos h1] at h
    exact absurd h (by simp)
  · rw [if_neg h1] at h
    by_cases h2 : gate.qubits = 1
    · rw [if_pos h2] at h
      exact applySingleQubitGate_ok _ _ _ _ h
    · rw [if_neg h2] at h
      by_cases h3 : gate.qubits = 2
      · rw [if_pos h3] at h
        exact applyTwoQubitGate_ok _ _ _ _ _ h
      · rw [if_neg h3] at h
        exact absurd h (by simp)

lemma sum_getMeasurementProbabilities (s : QuantumState) :
    s.getMeasurementProbabilities.sum = normSqSum s.amplitudes := rfl

/-! ### Concrete constructor evaluations (shared by several witnesses) -/

lemma make_one_eval : QuantumState.make 1 none = .ok ⟨1, [1, 0]⟩ := by
  rw [make_none_eval 1 (by norm_num)]
  rw [show (2 : ℕ) ^ 1 = 1 + 1 from rfl, defaultAmps_succ]
  rfl

lemma make_two_eval : QuantumState.make 2 none = .ok ⟨2, [1, 0, 0, 0]⟩ := by
  rw [make_none_eval 2 (by norm_num)]
  rw [show (2 : ℕ) ^ 2 = 3 + 1 from rfl, defaultAmps_succ]
  rfl

/-! ### Concrete bit-arithmetic facts (2-qubit masks 1 and 2) -/

lemma ldiff02 : Nat.ldiff 0 2 = 0 := by simp [Nat.ldiff, Nat.bitwise.eq_def]

lemma ldiff12 : Nat.ldiff 1 2 = 1 := by simp [Nat.ldiff, Nat.bitwise.eq_def]

lemma ldiff22 : Nat.ldiff 2 2 = 0 := by simp [Nat.ldiff, Nat.bitwise.eq_def]

lemma ldiff32 : Nat.ldiff 3 2 = 1 := by simp [Nat.ldiff, Nat.bitwise.eq_def]

lemma ldiff01 : Nat.ldiff 0 1 = 0 := by simp [Nat.ldiff, Nat.bitwise.eq_def]

lemma ldiff11 : Nat.ldiff 1 1 = 0 := by simp [Nat.ldiff, Nat.bitwise.eq_def]

lemma ldiff21 : Nat.ldiff 2 1 = 2 := by simp [Nat.ldiff, Nat.bitwise.eq_def]

lemma ldiff31 : Nat.ldiff 3 1 = 2 := by simp [Nat.ldiff, Nat.bitwise.eq_def]

/-! ### Arithmetic with `1/sqrt 2` -/

lemma SQRT2_ne_zero : SQRT2 ≠ 0 := by
  rw [SQRT2]
  exact Real.sqrt_ne_zero'.mpr (by norm_num)

lemma ampProb_inv_SQRT2 : ampProb (((SQRT2 : ℝ) : ℂ))⁻¹ = 1 / 2 := by
  rw [← Complex.ofReal_inv, ampProb_ofReal, inv_pow, SQRT2,
    Real.sq_sqrt (by norm_num : (0:ℝ) ≤ 2), one_div]

lemma inv_SQRT2_mul : (((SQRT2 : ℝ) : ℂ))⁻¹ * ((SQRT2 : ℝ) : ℂ) = 1 :=
  inv_mul_cancel₀ (by exact_mod_cast SQRT2_ne_zero)

/-! ### Concrete evaluation of the Bell-scenario steps -/

lemma applyH_on_00 :
    QuantumOperations.applySingleQubitGate ⟨2, [1, 0, 0, 0]⟩ HadamardGate 0 =
      QuantumState.make 2 (some
        [((1 / SQRT2 : ℝ) : ℂ), 0, ((1 / SQRT2 : ℝ) : ℂ), 0]) := by
  rw [QuantumOperations.applySingleQubitGate]
  rw [if_neg (by simp [HadamardGate]), if_neg (by simp)]
  simp [HadamardGate, bitAt, QuantumState.amp, QuantumGate.entry, List.ofFn_succ,
    ldiff02, ldiff12, ldiff22, ldiff32]

lemma make_bell_mid :
    QuantumState.make 2 (some [((1 / SQRT2 : ℝ) : ℂ), 0, ((1 / SQRT2 : ℝ) : ℂ), 0]) =
      .ok ⟨2, [((1 / SQRT2 : ℝ) : ℂ), 0, ((1 / SQRT2 : ℝ) : ℂ), 0]⟩ :=
  make_of_normalized 2 _ (by norm_num) (by simp)
    (by simp [ampProb_inv_SQRT2]; norm_num)

lemma applyCNOT_on_bell_mid :
    QuantumOperations.applyTwoQubitGate
        ⟨2, [((1 / SQRT2 : ℝ) : ℂ), 0, ((1 / SQRT2 : ℝ) : ℂ), 0]⟩ CNOTGate 0 1 =
      QuantumState.make 2 (some [((1 / SQRT2 : ℝ) : ℂ), 0, 0, 0]) := by
  rw [QuantumOperations.applyTwoQubitGate]
  rw [if_neg (by simp [CNOTGate]), if_neg (by simp), if_neg (by simp)]
  simp [CNOTGate, bitAt, QuantumState.amp, QuantumGate.entry, List.ofFn_succ,
    ldiff02, ldiff12, ldiff22, ldiff32, ldiff01, ldiff11, ldiff21, ldiff31,
    List.range_succ]

lemma make_bell_final :
    QuantumState.make 2 (some [((1 / SQRT2 : ℝ) : ℂ), 0, 0, 0]) =
      .ok ⟨2, [1, 0, 0, 0]⟩ := by
  have hhalf : normSqSum [((1 / SQRT2 : ℝ) : ℂ), 0, 0, 0] = 1 / 2 := by
    simp [ampProb_inv_SQRT2]
  rw [QuantumState.make, if_neg (by norm_num)]
  show (if ([((1 / SQRT2 : ℝ) : ℂ), 0, 0, 0].length ≠ 2 ^ 2)
      then (.error .dimensionMismatch : Except QError QuantumState)
      else (normalizeAmps [((1 / SQRT2 : ℝ) : ℂ), 0, 0, 0]).map fun l => ⟨2, l⟩) = _
  rw [if_neg (by simp), normalizeAmps_of_ne _ (by rw [hhalf]; norm_num), hhalf]
  have hsqrt : ((1 / Real.sqrt (1 / 2) : ℝ) : ℂ) = ((SQRT2 : ℝ) : ℂ) := by
    rw [one_div (2:ℝ), Real.sqrt_inv, one_div, inv_inv, SQRT2]
  rw [hsqrt]
  simp [inv_SQRT2_mul, one_div, Complex.ofReal_inv, Except.map]

/-! ## Claim theorems -/

/-- C4: every `QuantumState` produced by the constructor, by `setAmplitude`,
or by a successful gate application has measurement probabilities summing to
exactly 1 (hence within 1e-9, after every step of any sequence of successful
gate applications), and normalizing an identically-zero amplitude vector
fails with the zero-state error instead of producing a state. -/
theorem normalization_invariant :
    (∀ (n : ℕ) (init : Option (List ℂ)) (s : QuantumState),
        QuantumState.make n init = .ok s → s.getMeasurementProbabilities.sum = 1) ∧
    (∀ (s : QuantumState) (i : ℕ) (a : ℂ) (s2 : QuantumState),
        s.setAmplitude i a = .ok s2 → s2.getMeasurementProbabilities.sum = 1) ∧
    (∀ (state : QuantumState) (gate : QuantumGate) (targets : List ℕ) (s2 : QuantumState),
        QuantumOperations.applyGate state gate targets = .ok s2 →
          s2.getMeasurementProbabilities.sum = 1) ∧
    (∀ m : ℕ, normalizeAmps (List.replicate m 0) = .error .zeroState) := by
  refine ⟨?_, ?_, ?_, ?_⟩
  · intro n init s h
    rw [sum_getMeasurementProbabilities]
    exact (make_ok n init s h).2.2
  · intro s i a s2 h
    rw [QuantumState.setAmplitude] at h
    by_cases hb : i ≥ s.amplitudes.length
    · rw [if_pos hb] at h
      exact absurd h (by simp)
    · rw [if_neg hb] at h
      rcases hn : normalizeAmps (s.amplitudes.set i a) with e | l2
      · rw [hn] at h
        exact absurd h (by simp [Except.map])
      · rw [hn] at h
        simp only [Except.map] at h
        injection h with h
        rw [sum_getMeasurementProbabilities, ← h]
        exact (normalizeAmps_ok _ _ hn).1
  · intro state gate targets s2 h
    obtain ⟨l, hl⟩ := applyGate_ok state gate targets s2 h
    rw [sum_getMeasurementProbabilities]
    exact (make_ok _ _ _ hl).2.2
  · intro m
    exact normalizeAmps_of_eq_zero _ (normSqSum_replicate_zero m)

/-- Witness for C4 at the freshly constructed 1-qubit state. -/
theorem normalization_invariant_witness :
    (⟨1, [1, 0]⟩ : QuantumState).getMeasurementProbabilities.sum = 1 :=
  normalization_invariant.1 1 none ⟨1, [1, 0]⟩ make_one_eval

/-- C5 counterexample: constructing a `QuantumState` with 0 qubits does NOT
fail -- the constructor checks only the upper bound, so `new QuantumState(0)`
succeeds and returns the one-amplitude state. -/
theorem quantumState_zero_qubits_succeeds : QuantumState.make 0 none = .ok ⟨0, [1]⟩ := by
  rw [make_none_eval 0 (by norm_num)]
  rw [show (2 : ℕ) ^ 0 = 0 + 1 from rfl, defaultAmps_succ]
  rfl

/-- C5 (amended): the `QuantumState` constructor rejects only qubit counts
above 5 (with the maximum-qubits error), so construction with 6 qubits fails
while construction with 0 qubits succeeds; the `QuantumSimulator` constructor
rejects every count outside `[1, 5]` -- in particular 0 and 6 -- with the
invalid-qubit-count error. -/
theorem qubit_bound_amended :
    (∀ (n : ℕ) (init : Option (List ℂ)), 5 < n →
        QuantumState.make n init = .error .maxQubitsExceeded) ∧
    (∀ n : ℕ, n < 1 ∨ 5 < n → SimState.init n = .error .invalidQubitCount) := by
  constructor
  · intro n init h
    rw [QuantumState.make, if_pos h]
  · intro n h
    rw [SimState.init, if_pos h]

/-- C1 (evaluation of the code at the claim's scenario): starting the 2-qubit
register in `|00⟩`, applying Hadamard to qubit 0 and then CNOT with control 0
and target 1, the code returns measurement probabilities `[1, 0, 0, 0]` --
P(|00⟩) = 1 and P(|11⟩) = 0, not the claimed 0.5 / 0.5.  (The operator
precedence slip in the `states` array of `applyTwoQubitGate` makes the
`|11⟩` row read the `|11⟩` amplitude, so the `|10⟩` component is dropped and
the remaining `|00⟩` component is renormalized to 1.) -/
theorem bell_scenario_code_eval :
    ((QuantumState.make 2 none).bind fun s =>
      (QuantumOperations.applySingleQubitGate s HadamardGate 0).bind fun s2 =>
        (QuantumOperations.applyTwoQubitGate s2 CNOTGate 0 1).map
          QuantumState.getMeasurementProbabilities) = .ok [1, 0, 0, 0] := by
  rw [make_two_eval]
  show ((QuantumOperations.applySingleQubitGate ⟨2, [1,0,0,0]⟩ HadamardGate 0).bind fun s2 =>
      (QuantumOperations.applyTwoQubitGate s2 CNOTGate 0 1).map
        QuantumState.getMeasurementProbabilities) = .ok [1, 0, 0, 0]
  rw [applyH_on_00, make_bell_mid]
  show ((QuantumOperations.applyTwoQubitGate
      ⟨2, [((1 / SQRT2 : ℝ) : ℂ), 0, ((1 / SQRT2 : ℝ) : ℂ), 0]⟩ CNOTGate 0 1).map
        QuantumState.getMeasurementProbabilities) = .ok [1, 0, 0, 0]
  rw [applyCNOT_on_bell_mid, make_bell_final]
  show Except.ok (QuantumState.getMeasurementProbabilities ⟨2, [1,0,0,0]⟩) = .ok [1, 0, 0, 0]
  simp [QuantumState.getMeasurementProbabilities]

/-- C2 (evaluation of the code at the claim's inputs): CNOT with control 0
and target 1 leaves the valid 2-qubit basis state `|00⟩` unchanged (first
half of the claim, which holds), but on the valid basis state `|10⟩` it does
NOT return `|11⟩`: the precedence slip zeroes every output amplitude and the
renormalizing constructor then throws the zero-state error. -/
theorem cnot_code_eval :
    (QuantumState.make 2 (some [1, 0, 0, 0]) = .ok ⟨2, [1, 0, 0, 0]⟩ ∧
     QuantumOperations.applyTwoQubitGate ⟨2, [1, 0, 0, 0]⟩ CNOTGate 0 1 =
       .ok ⟨2, [1, 0, 0, 0]⟩) ∧
    (QuantumState.make 2 (some [0, 0, 1, 0]) = .ok ⟨2, [0, 0, 1, 0]⟩ ∧
     QuantumOperations.applyTwoQubitGate ⟨2, [0, 0, 1, 0]⟩ CNOTGate 0 1 =
       .error .zeroState) := by
  have h00 : QuantumState.make 2 (some [1, 0, 0, 0]) = .ok ⟨2, [1, 0, 0, 0]⟩ :=
    make_of_normalized 2 _ (by norm_num) (by simp) (by simp)
  have h10 : QuantumState.make 2 (some [0, 0, 1, 0]) = .ok ⟨2, [0, 0, 1, 0]⟩ :=
    make_of_normalized 2 _ (by norm_num) (by simp) (by simp)
  have hz : QuantumState.make 2 (some [0, 0, 0, 0]) = .error .zeroState := by
    rw [QuantumState.make, if_neg (by norm_num)]
    show (if (([0,0,0,0] : List ℂ).length ≠ 2 ^ 2)
        then (.error .dimensionMismatch : Except QError QuantumState)
        else (normalizeAmps [0,0,0,0]).map fun l => ⟨2, l⟩) = _
    rw [if_neg (by simp), normalizeAmps_of_eq_zero _ (by simp)]
    rfl
  have g00 : QuantumOperations.applyTwoQubitGate ⟨2, [1, 0, 0, 0]⟩ CNOTGate 0 1 =
      QuantumState.make 2 (some [1, 0, 0, 0]) := by
    rw [QuantumOperations.applyTwoQubitGate]
    rw [if_neg (by simp [CNOTGate]), if_neg (by simp), if_neg (by simp)]
    simp [CNOTGate, bitAt, QuantumState.amp, QuantumGate.entry, List.ofFn_succ,
      ldiff02, ldiff12, ldiff22, ldiff32, ldiff01, ldiff11, ldiff21, ldiff31,
      List.range_succ]
  have g10 : QuantumOperations.applyTwoQubitGate ⟨2, [0, 0, 1, 0]⟩ CNOTGate 0 1 =
      QuantumState.make 2 (some [0, 0, 0, 0]) := by
    rw [QuantumOperations.applyTwoQubitGate]
    rw [if_neg (by simp [CNOTGate]), if_neg (by simp), if_neg (by simp)]
    simp [CNOTGate, bitAt, QuantumState.amp, QuantumGate.entry, List.ofFn_succ,
      ldiff02, ldiff12, ldiff22, ldiff32, ldiff01, ldiff11, ldiff21, ldiff31,
      List.range_succ]
  exact ⟨⟨h00, by rw [g00, h00]⟩, ⟨h10, by rw [g10, hz]⟩⟩

/-! ### Step behaviour of the simulator session operations -/

lemma simApplyGate_none (sim : SimState) (gate : QuantumGate) (targets : List ℕ)
    (sim2 : SimState) (h : simApplyGate sim gate targets = (sim2, none)) :
    sim2.executionLog.length = sim.executionLog.length + 1 ∧
    sim2.stateHistory.length = sim.stateHistory.length + 1 := by
  rcases hg : QuantumOperations.applyGate sim.currentState gate targets with e | ns
  · rw [simApplyGate, hg] at h
    exact absurd (congrArg Prod.snd h) (by simp)
  · rw [simApplyGate, hg] at h
    have h1 := congrArg Prod.fst h
    simp only at h1
    rw [← h1]
    simp

lemma simApplyGate_some (sim : SimState) (gate : QuantumGate) (targets : List ℕ)
    (sim2 : SimState) (e : QError) (h : simApplyGate sim gate targets = (sim2, some e)) :
    sim2.executionLog.length = sim.executionLog.length + 1 ∧
    sim2.stateHistory = sim.stateHistory := by
  rcases hg : QuantumOperations.applyGate sim.currentState gate targets with e2 | ns
  · rw [simApplyGate, hg] at h
    have h1 := congrArg Prod.fst h
    simp only at h1
    rw [← h1]
    simp
  · rw [simApplyGate, hg] at h
    exact absurd (congrArg Prod.snd h) (by simp)

lemma simMeasureQubit_none (sim : SimState) (q : ℕ) (u : ℝ)
    (sim2 : SimState) (h : simMeasureQubit sim q u = (sim2, none)) :
    sim2.executionLog.length = sim.executionLog.length + 1 ∧
    sim2.stateHistory.length = sim.stateHistory.length + 1 := by
  rcases hp : sim.currentState.getQubitMeasurementProbabilities q with e | pr
  · rw [simMeasureQubit, hp] at h
    exact absurd (congrArg Prod.snd h) (by simp)
  · rcases hm : QuantumOperations.measureQubit sim.currentState q u with e | rn
    · rw [simMeasureQubit, hp, hm] at h
      exact absurd (congrArg Prod.snd h) (by simp)
    · rw [simMeasureQubit, hp, hm] at h
      have h1 := congrArg Prod.fst h
      simp only at h1
      rw [← h1]
      simp

lemma simMeasureQubit_some (sim : SimState) (q : ℕ) (u : ℝ)
    (sim2 : SimState) (e : QError) (h : simMeasureQubit sim q u = (sim2, some e)) :
    sim2 = sim := by
  rcases hp : sim.currentState.getQubitMeasurementProbabilities q with e2 | pr
  · rw [simMeasureQubit, hp] at h
    have h1 := congrArg Prod.fst h
    simp only at h1
    exact h1.symm
  · rcases hm : QuantumOperations.measureQubit sim.currentState q u with e2 | rn
    · rw [simMeasureQubit, hp, hm] at h
      injection h with h1 h2
      exact h1.symm
    · rw [simMeasureQubit, hp, hm] at h
      exact absurd (congrArg Prod.snd h) (by simp)

lemma simMeasureAll_none (sim : SimState) (u : ℝ)
    (sim2 : SimState) (h : simMeasureAll sim u = (sim2, none)) :
    sim2.executionLog.length = sim.executionLog.length + 1 ∧
    sim2.stateHistory.length = sim.stateHistory.length + 1 := by
  rw [simMeasureAll] at h
  rcases hm : QuantumState.make sim.numQubits
      (some ((List.replicate (2 ^ sim.numQubits) (0 : ℂ)).set
        ((((QuantumOperations.measureAll sim.currentState u).1).enum.map
          fun q => q.2 * 2 ^ (sim.numQubits - 1 - q.1)).sum) 1)) with e | ns
  · rw [hm] at h
    exact absurd (congrArg Prod.snd h) (by simp)
  · rw [hm] at h
    have h1 := congrArg Prod.fst h
    simp only at h1
    rw [← h1]
    simp

lemma simMeasureAll_some (sim : SimState) (u : ℝ)
    (sim2 : SimState) (e : QError) (h : simMeasureAll sim u = (sim2, some e)) :
    sim2 = sim := by
  rw [simMeasureAll] at h
  rcases hm : QuantumState.make sim.numQubits
      (some ((List.replicate (2 ^ sim.numQubits) (0 : ℂ)).set
        ((((QuantumOperations.measureAll sim.currentState u).1).enum.map
          fun q => q.2 * 2 ^ (sim.numQubits - 1 - q.1)).sum) 1)) with e2 | ns
  · rw [hm] at h
    have h1 := congrArg Prod.fst h
    simp only at h1
    exact h1.symm
  · rw [hm] at h
    exact absurd (congrArg Prod.snd h) (by simp)

lemma simReset_none (sim : SimState) (sim2 : SimState)
    (h : simReset sim = (sim2, none)) :
    sim2.executionLog.length = 1 ∧ sim2.stateHistory.length = 1 := by
  rcases hm : QuantumState.make sim.numQubits none with e | s
  · rw [simReset, hm] at h
    exact absurd (congrArg Prod.snd h) (by simp)
  · rw [simReset, hm] at h
    have h1 := congrArg Prod.fst h
    simp only at h1
    rw [← h1]
    simp

lemma simReset_some (sim : SimState) (sim2 : SimState) (e : QError)
    (h : simReset sim = (sim2, some e)) : sim2 = sim := by
  rcases hm : QuantumState.make sim.numQubits none with e2 | s
  · rw [simReset, hm] at h
    have h1 := congrArg Prod.fst h
    simp only at h1
    exact h1.symm
  · rw [simReset, hm] at h
    exact absurd (congrArg Prod.snd h) (by simp)

lemma init_one_eval :
    SimState.init 1 = .ok ⟨1, ⟨1, [1, 0]⟩, [⟨1, [1, 0]⟩], [initLine 1]⟩ := by
  rw [SimState.init, if_neg (by norm_num)]
  simp [simReset, make_one_eval]

lemma simRunCount_cons (sim : SimState) (failed : ℕ) (op : SimOp) (rest : List SimOp) :
    simRunCount sim failed (op :: rest) =
      simRunCount (simStep sim op).1
        (match op with
         | .reset => if (simStep sim op).2 = none then 0 else failed
         | .applyGate _ _ => if (simStep sim op).2 = none then failed else failed + 1
         | _ => failed) rest := rfl

/-- C3 counterexample: from the freshly initialized 1-qubit session, the
single call `applyGate(CNOT, [0])` fails validation, appends an error log
line, and does not extend the history, so afterwards the log has length 2
while the state history has length 1 -- the two lists do not always have
equal length. -/
theorem audit_trail_counterexample :
    SimState.init 1 = .ok ⟨1, ⟨1, [1, 0]⟩, [⟨1, [1, 0]⟩], [initLine 1]⟩ ∧
    (simStep ⟨1, ⟨1, [1, 0]⟩, [⟨1, [1, 0]⟩], [initLine 1]⟩
        (.applyGate CNOTGate [0])).1.executionLog.length = 2 ∧
    (simStep ⟨1, ⟨1, [1, 0]⟩, [⟨1, [1, 0]⟩], [initLine 1]⟩
        (.applyGate CNOTGate [0])).1.stateHistory.length = 1 := by
  refine ⟨init_one_eval, ?_, ?_⟩ <;>
    simp [simStep, simApplyGate, QuantumOperations.applyGate, CNOTGate]

/-- C3 (amended): the state history and execution log grow by exactly one
entry per successful gate application or measurement and a successful reset
truncates both to length 1, so they have equal length as long as every call
succeeds; but a gate application that fails validation appends an error log
line without a history entry (a failed measurement appends neither), so after
any operation sequence the log exceeds the history by exactly the number of
failed gate applications since the last reset. -/
theorem audit_trail_amended :
    (∀ (sim : SimState) (gate : QuantumGate) (targets : List ℕ) (sim2 : SimState),
        simApplyGate sim gate targets = (sim2, none) →
          sim2.executionLog.length = sim.executionLog.length + 1 ∧
          sim2.stateHistory.length = sim.stateHistory.length + 1) ∧
    (∀ (sim : SimState) (gate : QuantumGate) (targets : List ℕ) (sim2 : SimState) (e : QError),
        simApplyGate sim gate targets = (sim2, some e) →
          sim2.executionLog.length = sim.executionLog.length + 1 ∧
          sim2.stateHistory = sim.stateHistory) ∧
    (∀ (sim : SimState) (q : ℕ) (u : ℝ) (sim2 : SimState),
        simMeasureQubit sim q u = (sim2, none) →
          sim2.executionLog.length = sim.executionLog.length + 1 ∧
          sim2.stateHistory.length = sim.stateHistory.length + 1) ∧
    (∀ (sim : SimState) (u : ℝ) (sim2 : SimState),
        simMeasureAll sim u = (sim2, none) →
          sim2.executionLog.length = sim.executionLog.length + 1 ∧
          sim2.stateHistory.length = sim.stateHistory.length + 1) ∧
    (∀ (sim sim2 : SimState), simReset sim = (sim2, none) →
        sim2.executionLog.length = 1 ∧ sim2.stateHistory.length = 1) ∧
    (∀ (ops : List SimOp) (sim : SimState) (failed : ℕ),
        sim.executionLog.length = sim.stateHistory.length + failed →
          (simRunCount sim failed ops).1.executionLog.length =
            (simRunCount sim failed ops).1.stateHistory.length +
              (simRunCount sim failed ops).2) := by
  refine ⟨simApplyGate_none, simApplyGate_some, simMeasureQubit_none,
    simMeasureAll_none, simReset_none, ?_⟩
  intro ops
  induction ops with
  | nil =>
      intro sim failed h
      simpa [simRunCount] using h
  | cons op rest ih =>
      intro sim failed h
      rw [simRunCount_cons]
      apply ih
      cases op with
      | applyGate g t =>
          rcases hsg : simApplyGate sim g t with ⟨sim2, err⟩
          cases err with
          | none =>
              obtain ⟨h1, h2⟩ := simApplyGate_none sim g t sim2 hsg
              simp [simStep, hsg]
              omega
          | some e =>
              obtain ⟨h1, h2⟩ := simApplyGate_some sim g t sim2 e hsg
              have h3 : sim2.stateHistory.length = sim.stateHistory.length := by rw [h2]
              simp [simStep, hsg]
              omega
      | measureQubit q u =>
          rcases hsg : simMeasureQubit sim q u with ⟨sim2, err⟩
          cases err with
          | none =>
              obtain ⟨h1, h2⟩ := simMeasureQubit_none sim q u sim2 hsg
              simp [simStep, hsg]
              omega
          | some e =>
              have h1 := simMeasureQubit_some sim q u sim2 e hsg
              subst h1
              simp [simStep, hsg]
              omega
      | measureAll u =>
          rcases hsg : simMeasureAll sim u with ⟨sim2, err⟩
          cases err with
          | none =>
              obtain ⟨h1, h2⟩ := simMeasureAll_none sim u sim2 hsg
              simp [simStep, hsg]
              omega
          | some e =>
              have h1 := simMeasureAll_some sim u sim2 e hsg
              subst h1
              simp [simStep, hsg]
              omega
      | reset =>
          rcases hsg : simReset sim with ⟨sim2, err⟩
          cases err with
          | none =>
              obtain ⟨h1, h2⟩ := simReset_none sim sim2 hsg
              simp [simStep, hsg, h1, h2]
          | some e =>
              have h1 := simReset_some sim sim2 e hsg
              subst h1
              simp [simStep, hsg]
              omega

/-- Witness for C3 (amended): the trace invariant applied to the initialized
1-qubit session running the failing `applyGate(CNOT, [0])` call. -/
theorem audit_trail_amended_witness :
    (simRunCount ⟨1, ⟨1, [1, 0]⟩, [⟨1, [1, 0]⟩], [initLine 1]⟩ 0
        [SimOp.applyGate CNOTGate [0]]).1.executionLog.length =
      (simRunCount ⟨1, ⟨1, [1, 0]⟩, [⟨1, [1, 0]⟩], [initLine 1]⟩ 0
        [SimOp.applyGate CNOTGate [0]]).1.stateHistory.length +
      (simRunCount ⟨1, ⟨1, [1, 0]⟩, [⟨1, [1, 0]⟩], [initLine 1]⟩ 0
        [SimOp.applyGate CNOTGate [0]]).2 :=
  audit_trail_amended.2.2.2.2.2
    [SimOp.applyGate CNOTGate [0]]
    ⟨1, ⟨1, [1, 0]⟩, [⟨1, [1, 0]⟩], [initLine 1]⟩ 0 (by simp)

/-! ### Single-qubit gate algebra on a symbolic state -/

lemma ampProb_expand (a : ℂ) : ampProb a = a.re ^ 2 + a.im ^ 2 := by
  rw [ampProb_eq_normSq, Complex.normSq_apply]
  ring

lemma normSqSum_pair_scale (w : ℝ) (a0 a1 : ℂ) :
    normSqSum [(w : ℂ) * a0 + (w : ℂ) * a1, (w : ℂ) * a0 - (w : ℂ) * a1]
      = 2 * w ^ 2 * normSqSum [a0, a1] := by
  simp only [normSqSum_cons, normSqSum_nil, add_zero, ampProb_expand, Complex.add_re,
    Complex.add_im, Complex.sub_re, Complex.sub_im, Complex.mul_re, Complex.mul_im,
    Complex.ofReal_re, Complex.ofReal_im]
  ring

lemma sq_inv_SQRT2_real : (SQRT2⁻¹ : ℝ) ^ 2 = 1 / 2 := by
  rw [inv_pow, SQRT2, Real.sq_sqrt (by norm_num : (0:ℝ) ≤ 2), one_div]

lemma sq_ofReal_SQRT2 : ((SQRT2 : ℝ) : ℂ) ^ 2 = 2 := by
  rw [← Complex.ofReal_pow, SQRT2, Real.sq_sqrt (by norm_num : (0:ℝ) ≤ 2)]
  norm_num

lemma sq_inv_ofReal_SQRT2 : (((SQRT2 : ℝ) : ℂ))⁻¹ ^ 2 = 2⁻¹ := by
  rw [inv_pow, sq_ofReal_SQRT2]

lemma applyX_pair (a0 a1 : ℂ) :
    QuantumOperations.applySingleQubitGate ⟨1, [a0, a1]⟩ PauliXGate 0 =
      QuantumState.make 1 (some [a1, a0]) := by
  rw [QuantumOperations.applySingleQubitGate]
  rw [if_neg (by simp [PauliXGate]), if_neg (by simp)]
  simp [PauliXGate, bitAt, QuantumState.amp, QuantumGate.entry, List.ofFn_succ,
    ldiff01, ldiff11]

lemma applyH_pair (a0 a1 : ℂ) :
    QuantumOperations.applySingleQubitGate ⟨1, [a0, a1]⟩ HadamardGate 0 =
      QuantumState.make 1 (some
        [(((SQRT2 : ℝ) : ℂ))⁻¹ * a0 + (((SQRT2 : ℝ) : ℂ))⁻¹ * a1,
         (((SQRT2 : ℝ) : ℂ))⁻¹ * a0 - (((SQRT2 : ℝ) : ℂ))⁻¹ * a1]) := by
  rw [QuantumOperations.applySingleQubitGate]
  rw [if_neg (by simp [HadamardGate]), if_neg (by simp)]
  simp [HadamardGate, bitAt, QuantumState.amp, QuantumGate.entry, List.ofFn_succ,
    ldiff01, ldiff11]
  ring_nf

/-- C9: on every normalized single-qubit state, applying Pauli-X twice through
`applySingleQubitGate` returns the state with the original amplitudes, and
applying Hadamard twice likewise returns the original state (exactly, in the
real-arithmetic model). -/
theorem gate_involutions (a0 a1 : ℂ) (h : normSqSum [a0, a1] = 1) :
    ((QuantumOperations.applySingleQubitGate ⟨1, [a0, a1]⟩ PauliXGate 0).bind fun s =>
        QuantumOperations.applySingleQubitGate s PauliXGate 0) = .ok ⟨1, [a0, a1]⟩ ∧
    ((QuantumOperations.applySingleQubitGate ⟨1, [a0, a1]⟩ HadamardGate 0).bind fun s =>
        QuantumOperations.applySingleQubitGate s HadamardGate 0) = .ok ⟨1, [a0, a1]⟩ := by
  have h10 : normSqSum [a1, a0] = 1 := by
    simp only [normSqSum_cons, normSqSum_nil, add_zero] at h ⊢
    linarith
  constructor
  · rw [applyX_pair, make_of_normalized 1 _ (by norm_num) (by simp) h10]
    show QuantumOperations.applySingleQubitGate ⟨1, [a1, a0]⟩ PauliXGate 0 = _
    rw [applyX_pair, make_of_normalized 1 _ (by norm_num) (by simp) h]
  · have hH : normSqSum
        [(((SQRT2 : ℝ) : ℂ))⁻¹ * a0 + (((SQRT2 : ℝ) : ℂ))⁻¹ * a1,
         (((SQRT2 : ℝ) : ℂ))⁻¹ * a0 - (((SQRT2 : ℝ) : ℂ))⁻¹ * a1] = 1 := by
      rw [← Complex.ofReal_inv, normSqSum_pair_scale, h, sq_inv_SQRT2_real]
      norm_num
    rw [applyH_pair, make_of_normalized 1 _ (by norm_num) (by simp) hH]
    show QuantumOperations.applySingleQubitGate
        ⟨1, [(((SQRT2 : ℝ) : ℂ))⁻¹ * a0 + (((SQRT2 : ℝ) : ℂ))⁻¹ * a1,
             (((SQRT2 : ℝ) : ℂ))⁻¹ * a0 - (((SQRT2 : ℝ) : ℂ))⁻¹ * a1]⟩ HadamardGate 0 = _
    rw [applyH_pair]
    have e0 : (((SQRT2 : ℝ) : ℂ))⁻¹ * ((((SQRT2 : ℝ) : ℂ))⁻¹ * a0 + (((SQRT2 : ℝ) : ℂ))⁻¹ * a1) +
        (((SQRT2 : ℝ) : ℂ))⁻¹ * ((((SQRT2 : ℝ) : ℂ))⁻¹ * a0 - (((SQRT2 : ℝ) : ℂ))⁻¹ * a1) = a0 := by
      linear_combination 2 * a0 * sq_inv_ofReal_SQRT2
    have e1 : (((SQRT2 : ℝ) : ℂ))⁻¹ * ((((SQRT2 : ℝ) : ℂ))⁻¹ * a0 + (((SQRT2 : ℝ) : ℂ))⁻¹ * a1) -
        (((SQRT2 : ℝ) : ℂ))⁻¹ * ((((SQRT2 : ℝ) : ℂ))⁻¹ * a0 - (((SQRT2 : ℝ) : ℂ))⁻¹ * a1) = a1 := by
      linear_combination 2 * a1 * sq_inv_ofReal_SQRT2
    rw [e0, e1, make_of_normalized 1 _ (by norm_num) (by simp) h]

/-- Witness for C9 at the basis state `|0⟩`. -/
theorem gate_involutions_witness :
    ((QuantumOperations.applySingleQubitGate ⟨1, [1, 0]⟩ PauliXGate 0).bind fun s =>
        QuantumOperations.applySingleQubitGate s PauliXGate 0) = .ok ⟨1, [1, 0]⟩ ∧
    ((QuantumOperations.applySingleQubitGate ⟨1, [1, 0]⟩ HadamardGate 0).bind fun s =>
        QuantumOperations.applySingleQubitGate s HadamardGate 0) = .ok ⟨1, [1, 0]⟩ :=
  gate_involutions 1 0 (by simp)

/-! ### Fidelity -/

/-- The inner product `⟨A|B⟩` exactly as the specification words it: conjugate
A's amplitudes and dot with B's (stated over the paired entries).  This is the
spec-side definition that `calculateFidelity` is compared against. -/
def specInnerProduct (A B : List ℂ) : ℂ :=
  (List.zipWith (fun a b => (starRingEnd ℂ) a * b) A B).sum

lemma conjAmp_eq (a : ℂ) : QuantumOperations.conjAmp a = (starRingEnd ℂ) a := by
  apply Complex.ext <;> simp [QuantumOperations.conjAmp]

lemma range_zip_sum {M : Type} [AddCommMonoid M] (f : ℂ → ℂ → M) :
    ∀ (A B : List ℂ), A.length = B.length →
      ((List.range A.length).map fun i => f (A.getD i 0) (B.getD i 0)).sum
        = (List.zipWith f A B).sum
  | [], [], _ => by simp
  | [], b :: u, h => by simp at h
  | a :: t, [], h => by simp at h
  | a :: t, b :: u, h => by
      rw [List.length_cons, List.range_succ_eq_map, List.map_cons, List.map_map,
        List.sum_cons, List.zipWith_cons_cons, List.sum_cons]
      have h2 : List.map ((fun i => f ((a :: t).getD i 0) ((b :: u).getD i 0)) ∘ Nat.succ)
          (List.range t.length)
          = List.map (fun i => f (t.getD i 0) (u.getD i 0)) (List.range t.length) :=
        List.map_congr_left fun i _ => by simp [Function.comp]
      have h3 : t.length = u.length := by simpa using h
      rw [show (a :: t).getD 0 0 = a from rfl, show (b :: u).getD 0 0 = b from rfl, h2,
        range_zip_sum f t u h3]

lemma abs_of_im_zero (z : ℂ) (h : z.im = 0) : Complex.abs z = |z.re| := by
  have hz : z = ((z.re : ℝ) : ℂ) := by
    apply Complex.ext
    · rfl
    · simp [h]
  conv_lhs => rw [hz]
  rw [Complex.abs_ofReal]

lemma code_inner_eq_spec (s1 s2 : QuantumState)
    (hlen : s1.amplitudes.length = s2.amplitudes.length) :
    ((List.range s1.amplitudes.length).map fun i =>
      QuantumOperations.conjAmp (s1.amplitudes.getD i 0) * s2.amplitudes.getD i 0).sum
    = specInnerProduct s1.amplitudes s2.amplitudes := by
  have hfun : (fun (a b : ℂ) => QuantumOperations.conjAmp a * b)
      = fun a b => (starRingEnd ℂ) a * b :=
    funext fun a => funext fun b => by rw [conjAmp_eq]
  rw [range_zip_sum (fun a b => QuantumOperations.conjAmp a * b)
    s1.amplitudes s2.amplitudes hlen, specInnerProduct, hfun]

lemma code_inner_abs_sq_le_one (s1 s2 : QuantumState)
    (hlen : s1.amplitudes.length = s2.amplitudes.length)
    (h1 : normSqSum s1.amplitudes = 1) (h2 : normSqSum s2.amplitudes = 1) :
    Complex.abs (((List.range s1.amplitudes.length).map fun i =>
      QuantumOperations.conjAmp (s1.amplitudes.getD i 0) * s2.amplitudes.getD i 0).sum) ^ 2
      ≤ 1 := by
  rw [sum_map_range]
  have habs : Complex.abs (∑ i ∈ Finset.range s1.amplitudes.length,
      QuantumOperations.conjAmp (s1.amplitudes.getD i 0) * s2.amplitudes.getD i 0)
      ≤ ∑ i ∈ Finset.range s1.amplitudes.length,
          Complex.abs (s1.amplitudes.getD i 0) * Complex.abs (s2.amplitudes.getD i 0) :=
    calc Complex.abs (∑ i ∈ Finset.range s1.amplitudes.length,
            QuantumOperations.conjAmp (s1.amplitudes.getD i 0) * s2.amplitudes.getD i 0)
        = ‖∑ i ∈ Finset.range s1.amplitudes.length,
            QuantumOperations.conjAmp (s1.amplitudes.getD i 0) * s2.amplitudes.getD i 0‖ :=
          (Complex.norm_eq_abs _).symm
      _ ≤ ∑ i ∈ Finset.range s1.amplitudes.length,
            ‖QuantumOperations.conjAmp (s1.amplitudes.getD i 0) * s2.amplitudes.getD i 0‖ :=
          norm_sum_le _ _
      _ = ∑ i ∈ Finset.range s1.amplitudes.length,
            Complex.abs (s1.amplitudes.getD i 0) * Complex.abs (s2.amplitudes.getD i 0) :=
          Finset.sum_congr rfl fun i _ => by
            rw [Complex.norm_eq_abs, map_mul, conjAmp_eq, Complex.abs_conj]
  have hsum1 : ∑ i ∈ Finset.range s1.amplitudes.length,
      Complex.abs (s1.amplitudes.getD i 0) ^ 2 = 1 := by
    have hb := normSqSum_eq_range s1.amplitudes
    simp only [ampProb] at hb
    rw [← hb]
    exact h1
  have hsum2 : ∑ i ∈ Finset.range s1.amplitudes.length,
      Complex.abs (s2.amplitudes.getD i 0) ^ 2 = 1 := by
    have hb := normSqSum_eq_range s2.amplitudes
    simp only [ampProb] at hb
    rw [hlen, ← hb]
    exact h2
  have hcs := Finset.sum_mul_sq_le_sq_mul_sq (Finset.range s1.amplitudes.length)
    (fun i => Complex.abs (s1.amplitudes.getD i 0))
    (fun i => Complex.abs (s2.amplitudes.getD i 0))
  rw [hsum1, hsum2, one_mul] at hcs
  have h4 : Complex.abs (∑ i ∈ Finset.range s1.amplitudes.length,
      QuantumOperations.conjAmp (s1.amplitudes.getD i 0) * s2.amplitudes.getD i 0) ^ 2
      ≤ (∑ i ∈ Finset.range s1.amplitudes.length,
          Complex.abs (s1.amplitudes.getD i 0) * Complex.abs (s2.amplitudes.getD i 0)) ^ 2 :=
    pow_le_pow_left₀ (AbsoluteValue.nonneg _ _) habs 2
  linarith

lemma ampProb_I : ampProb Complex.I = 1 := by
  simp [ampProb]

/-- C6 counterexample: on the validly constructed 1-qubit states
`(1/sqrt 2)(|0⟩ + |1⟩)` and `(1/sqrt 2)(|0⟩ + i|1⟩)`, the conjugate inner
product is `1/2 + i/2`, so the true `|⟨A|B⟩|²` is `1/2`; but the imaginary
part is nonzero, JavaScript `Math.abs` coerces the mathjs complex value to
`NaN`, and `calculateFidelity` returns `NaN` (modelled `none`) -- not
`|⟨A|B⟩|²` and not a real value in `[0, 1]`. -/
theorem calculateFidelity_nan_counterexample :
    QuantumState.make 1 (some [((SQRT2⁻¹ : ℝ) : ℂ), ((SQRT2⁻¹ : ℝ) : ℂ)])
      = .ok ⟨1, [((SQRT2⁻¹ : ℝ) : ℂ), ((SQRT2⁻¹ : ℝ) : ℂ)]⟩ ∧
    QuantumState.make 1 (some [((SQRT2⁻¹ : ℝ) : ℂ), Complex.I * ((SQRT2⁻¹ : ℝ) : ℂ)])
      = .ok ⟨1, [((SQRT2⁻¹ : ℝ) : ℂ), Complex.I * ((SQRT2⁻¹ : ℝ) : ℂ)]⟩ ∧
    QuantumOperations.calculateFidelity
      ⟨1, [((SQRT2⁻¹ : ℝ) : ℂ), ((SQRT2⁻¹ : ℝ) : ℂ)]⟩
      ⟨1, [((SQRT2⁻¹ : ℝ) : ℂ), Complex.I * ((SQRT2⁻¹ : ℝ) : ℂ)]⟩ = .ok none ∧
    Complex.abs (specInnerProduct
      [((SQRT2⁻¹ : ℝ) : ℂ), ((SQRT2⁻¹ : ℝ) : ℂ)]
      [((SQRT2⁻¹ : ℝ) : ℂ), Complex.I * ((SQRT2⁻¹ : ℝ) : ℂ)]) ^ 2 = 1 / 2 := by
  have hs2 : (SQRT2⁻¹ : ℝ) ^ 2 = 1 / 2 := sq_inv_SQRT2_real
  have hsne : (SQRT2⁻¹ : ℝ) ≠ 0 := inv_ne_zero SQRT2_ne_zero
  refine ⟨?_, ?_, ?_, ?_⟩
  · refine make_of_normalized 1 _ (by norm_num) (by simp) ?_
    simp only [normSqSum_cons, normSqSum_nil, add_zero, ampProb_ofReal]
    rw [hs2]
    norm_num
  · refine make_of_normalized 1 _ (by norm_num) (by simp) ?_
    simp only [normSqSum_cons, normSqSum_nil, add_zero, ampProb_ofReal, ampProb_mul, ampProb_I]
    rw [hs2]
    norm_num
  · rw [QuantumOperations.calculateFidelity, if_neg (by simp)]
    show Except.ok ((QuantumOperations.jsAbsNumber
        (((List.range ([((SQRT2⁻¹ : ℝ) : ℂ), ((SQRT2⁻¹ : ℝ) : ℂ)] : List ℂ).length).map fun i =>
          QuantumOperations.conjAmp
              (([((SQRT2⁻¹ : ℝ) : ℂ), ((SQRT2⁻¹ : ℝ) : ℂ)] : List ℂ).getD i 0) *
            (([((SQRT2⁻¹ : ℝ) : ℂ), Complex.I * ((SQRT2⁻¹ : ℝ) : ℂ)] : List ℂ).getD i 0)).sum)).map
        fun a => a ^ 2) = .ok none
    have him : (((List.range ([((SQRT2⁻¹ : ℝ) : ℂ), ((SQRT2⁻¹ : ℝ) : ℂ)] : List ℂ).length).map
        fun i => QuantumOperations.conjAmp
            (([((SQRT2⁻¹ : ℝ) : ℂ), ((SQRT2⁻¹ : ℝ) : ℂ)] : List ℂ).getD i 0) *
          (([((SQRT2⁻¹ : ℝ) : ℂ), Complex.I * ((SQRT2⁻¹ : ℝ) : ℂ)] : List ℂ).getD i 0)).sum).im
        = SQRT2⁻¹ * SQRT2⁻¹ := by
      simp [List.range_succ, conjAmp_eq, Complex.conj_ofReal, Complex.add_im, Complex.mul_im]
    rw [QuantumOperations.jsAbsNumber, if_neg (by rw [him]; exact mul_ne_zero hsne hsne)]
    rfl
  · have hval : specInnerProduct
        [((SQRT2⁻¹ : ℝ) : ℂ), ((SQRT2⁻¹ : ℝ) : ℂ)]
        [((SQRT2⁻¹ : ℝ) : ℂ), Complex.I * ((SQRT2⁻¹ : ℝ) : ℂ)]
        = ((SQRT2⁻¹ : ℝ) : ℂ) * ((SQRT2⁻¹ : ℝ) : ℂ) +
          ((SQRT2⁻¹ : ℝ) : ℂ) * (Complex.I * ((SQRT2⁻¹ : ℝ) : ℂ)) := by
      simp [specInnerProduct, Complex.conj_ofReal]
    rw [hval, Complex.sq_abs, Complex.normSq_apply]
    simp only [Complex.add_re, Complex.add_im, Complex.mul_re, Complex.mul_im,
      Complex.I_re, Complex.I_im, Complex.ofReal_re, Complex.ofReal_im]
    ring_nf
    linear_combination (2 * (SQRT2⁻¹ : ℝ) ^ 2 + 1) * hs2

/-- C6 (amended): `calculateFidelity` requires equal qubit counts (else the
qubit-count-mismatch error).  Its result goes through JavaScript
`Math.abs(innerProduct as any)`, which coerces the mathjs complex inner
product to a number: when the inner product `⟨A|B⟩` has zero imaginary part
the function returns exactly `|⟨A|B⟩|²`, which lies in `[0, 1]` for
normalized states; when the imaginary part is nonzero it returns `NaN`
(modelled `none`) instead of `|⟨A|B⟩|²`.  `calculateFidelity(s, s) = 1` for
every normalized state (a self inner product is always real), the fidelity of
`|0⟩` with `|1⟩` is 0, and with `(1/sqrt 2, 1/sqrt 2)` it is `1/2`. -/
theorem calculateFidelity_amended :
    (∀ s1 s2 : QuantumState, s1.numQubits ≠ s2.numQubits →
        QuantumOperations.calculateFidelity s1 s2 = .error .qubitCountMismatch) ∧
    (∀ s1 s2 : QuantumState, s1.numQubits = s2.numQubits →
        s1.amplitudes.length = s2.amplitudes.length →
        (specInnerProduct s1.amplitudes s2.amplitudes).im = 0 →
        QuantumOperations.calculateFidelity s1 s2 =
          .ok (some (Complex.abs (specInnerProduct s1.amplitudes s2.amplitudes) ^ 2))) ∧
    (∀ s1 s2 : QuantumState, s1.numQubits = s2.numQubits →
        s1.amplitudes.length = s2.amplitudes.length →
        (specInnerProduct s1.amplitudes s2.amplitudes).im ≠ 0 →
        QuantumOperations.calculateFidelity s1 s2 = .ok none) ∧
    (∀ (s1 s2 : QuantumState) (r : ℝ), s1.amplitudes.length = s2.amplitudes.length →
        normSqSum s1.amplitudes = 1 → normSqSum s2.amplitudes = 1 →
        QuantumOperations.calculateFidelity s1 s2 = .ok (some r) → 0 ≤ r ∧ r ≤ 1) ∧
    (∀ s : QuantumState, normSqSum s.amplitudes = 1 →
        QuantumOperations.calculateFidelity s s = .ok (some 1)) ∧
    (QuantumOperations.calculateFidelity ⟨1, [1, 0]⟩ ⟨1, [0, 1]⟩ = .ok (some 0)) ∧
    (QuantumOperations.calculateFidelity ⟨1, [1, 0]⟩
        ⟨1, [((SQRT2⁻¹ : ℝ) : ℂ), ((SQRT2⁻¹ : ℝ) : ℂ)]⟩ = .ok (some (1 / 2))) := by
  refine ⟨?_, ?_, ?_, ?_, ?_, ?_, ?_⟩
  · intro s1 s2 hq
    rw [QuantumOperations.calculateFidelity, if_pos hq]
  · intro s1 s2 hq hlen him
    rw [QuantumOperations.calculateFidelity, if_neg (by rw [hq]; exact fun hc => hc rfl)]
    show Except.ok ((QuantumOperations.jsAbsNumber
        (((List.range s1.amplitudes.length).map fun i =>
          QuantumOperations.conjAmp (s1.amplitudes.getD i 0) * s2.amplitudes.getD i 0).sum)).map
        fun a => a ^ 2)
      = .ok (some (Complex.abs (specInnerProduct s1.amplitudes s2.amplitudes) ^ 2))
    rw [code_inner_eq_spec s1 s2 hlen, QuantumOperations.jsAbsNumber, if_pos him,
      abs_of_im_zero _ him]
    rfl
  · intro s1 s2 hq hlen him
    rw [QuantumOperations.calculateFidelity, if_neg (by rw [hq]; exact fun hc => hc rfl)]
    show Except.ok ((QuantumOperations.jsAbsNumber
        (((List.range s1.amplitudes.length).map fun i =>
          QuantumOperations.conjAmp (s1.amplitudes.getD i 0) * s2.amplitudes.getD i 0).sum)).map
        fun a => a ^ 2) = .ok none
    rw [code_inner_eq_spec s1 s2 hlen, QuantumOperations.jsAbsNumber, if_neg him]
    rfl
  · intro s1 s2 r hlen h1 h2 hr
    rw [QuantumOperations.calculateFidelity] at hr
    by_cases hq : s1.numQubits ≠ s2.numQubits
    · rw [if_pos hq] at hr
      exact absurd hr (by simp)
    · rw [if_neg hq] at hr
      injection hr with hr
      by_cases him : (((List.range s1.amplitudes.length).map fun i =>
          QuantumOperations.conjAmp (s1.amplitudes.getD i 0) * s2.amplitudes.getD i 0).sum).im = 0
      · rw [QuantumOperations.jsAbsNumber, if_pos him] at hr
        simp only [Option.map, Option.some.injEq] at hr
        have hreq : r = Complex.abs (((List.range s1.amplitudes.length).map fun i =>
            QuantumOperations.conjAmp (s1.amplitudes.getD i 0) * s2.amplitudes.getD i 0).sum) ^ 2 := by
          rw [abs_of_im_zero _ him, ← hr]
        rw [hreq]
        exact ⟨sq_nonneg _, code_inner_abs_sq_le_one s1 s2 hlen h1 h2⟩
      · rw [QuantumOperations.jsAbsNumber, if_neg him] at hr
        exact absurd hr (by simp [Option.map])
  · intro s h
    rw [QuantumOperations.calculateFidelity, if_neg (fun hc => hc rfl)]
    show Except.ok ((QuantumOperations.jsAbsNumber
        (((List.range s.amplitudes.length).map fun i =>
          QuantumOperations.conjAmp (s.amplitudes.getD i 0) * s.amplitudes.getD i 0).sum)).map
        fun a => a ^ 2) = .ok (some 1)
    have hinner : ((List.range s.amplitudes.length).map fun i =>
        QuantumOperations.conjAmp (s.amplitudes.getD i 0) * s.amplitudes.getD i 0).sum
        = ((normSqSum s.amplitudes : ℝ) : ℂ) := by
      rw [sum_map_range, normSqSum_eq_range, Complex.ofReal_sum]
      refine Finset.sum_congr rfl fun i _ => ?_
      rw [conjAmp_eq, mul_comm, Complex.mul_conj, ampProb_eq_normSq]
    rw [hinner, h, QuantumOperations.jsAbsNumber, if_pos (by simp)]
    simp
  · rw [QuantumOperations.calculateFidelity, if_neg (by simp)]
    show Except.ok ((QuantumOperations.jsAbsNumber
        (((List.range ([1, 0] : List ℂ).length).map fun i =>
          QuantumOperations.conjAmp (([1, 0] : List ℂ).getD i 0) *
            (([0, 1] : List ℂ).getD i 0)).sum)).map fun a => a ^ 2) = .ok (some 0)
    have hval : ((List.range ([1, 0] : List ℂ).length).map fun i =>
        QuantumOperations.conjAmp (([1, 0] : List ℂ).getD i 0) *
          (([0, 1] : List ℂ).getD i 0)).sum = 0 := by
      simp [List.range_succ, conjAmp_eq]
    rw [hval, QuantumOperations.jsAbsNumber, if_pos (by simp)]
    simp
  · rw [QuantumOperations.calculateFidelity, if_neg (by simp)]
    show Except.ok ((QuantumOperations.jsAbsNumber
        (((List.range ([1, 0] : List ℂ).length).map fun i =>
          QuantumOperations.conjAmp (([1, 0] : List ℂ).getD i 0) *
            (([((SQRT2⁻¹ : ℝ) : ℂ), ((SQRT2⁻¹ : ℝ) : ℂ)] : List ℂ).getD i 0)).sum)).map
        fun a => a ^ 2) = .ok (some (1 / 2))
    have hval : ((List.range ([1, 0] : List ℂ).length).map fun i =>
        QuantumOperations.conjAmp (([1, 0] : List ℂ).getD i 0) *
          (([((SQRT2⁻¹ : ℝ) : ℂ), ((SQRT2⁻¹ : ℝ) : ℂ)] : List ℂ).getD i 0)).sum
        = ((SQRT2⁻¹ : ℝ) : ℂ) := by
      simp [List.range_succ, conjAmp_eq]
    rw [hval, QuantumOperations.jsAbsNumber, if_pos (by simp)]
    have habs : |(((SQRT2⁻¹ : ℝ) : ℂ)).re| = (SQRT2⁻¹ : ℝ) := by
      rw [Complex.ofReal_re]
      exact abs_of_nonneg (inv_nonneg.mpr (by rw [SQRT2]; exact Real.sqrt_nonneg 2))
    simp only [Option.map, habs, sq_inv_SQRT2_real]

/-- Witness for C6 (amended): fidelity of the normalized state `|0⟩` with
itself is exactly 1. -/
theorem calculateFidelity_amended_witness :
    QuantumOperations.calculateFidelity ⟨1, [1, 0]⟩ ⟨1, [1, 0]⟩ = .ok (some 1) :=
  calculateFidelity_amended.2.2.2.2.1 ⟨1, [1, 0]⟩ (by simp)

/-! ### Measurement collapse -/

lemma normSqSum_project (s : QuantumState) (q r : ℕ) (c : ℝ)
    (hlen : s.amplitudes.length = 2 ^ s.numQubits) :
    normSqSum (List.ofFn fun i : Fin (2 ^ s.numQubits) =>
      if bitAt s.numQubits i.val q = r then s.amp i.val * (c : ℂ) else 0)
    = s.marginal q r * c ^ 2 := by
  rw [normSqSum_ofFn (2 ^ s.numQubits)
    (fun k => if bitAt s.numQubits k q = r then s.amp k * (c : ℂ) else 0)]
  have he : ∀ k : ℕ, ampProb (if bitAt s.numQubits k q = r then s.amp k * (c:ℂ) else 0)
      = if bitAt s.numQubits k q = r then ampProb (s.amp k) * c ^ 2 else 0 := by
    intro k
    by_cases hb : bitAt s.numQubits k q = r <;> simp [hb, ampProb_mul]
  rw [Finset.sum_congr rfl fun k _ => he k, marginal_eq_sum, hlen, Finset.sum_mul]
  refine Finset.sum_congr rfl fun k _ => ?_
  by_cases hb : bitAt s.numQubits k q = r <;> simp [hb]

/-- C7: on every valid state (at most 5 qubits, `2^n` normalized amplitudes),
in-range qubit index, and uniform sample `u ∈ [0,1)`, `measureQubit` returns
outcome 0 exactly when `u < prob0` (a sample equal to `prob0` yields 1), and
the returned state zeroes every amplitude inconsistent with the outcome while
multiplying each surviving amplitude by `1/sqrt(probability of the outcome)`;
that vector already has norm 1, so normalization is restored (second
conjunct) and the constructor's renormalization leaves it unchanged.  The
embedding is purely functional, so the input state is unchanged by
construction. -/
theorem measureQubit_spec (s : QuantumState) (q : ℕ) (u : ℝ)
    (h5 : s.numQubits ≤ 5)
    (hlen : s.amplitudes.length = 2 ^ s.numQubits)
    (hnorm : normSqSum s.amplitudes = 1)
    (hq : q < s.numQubits) (hu0 : 0 ≤ u) (hu1 : u < 1) :
    QuantumOperations.measureQubit s q u =
      .ok (if u < s.marginal q 0 then 0 else 1,
        ⟨s.numQubits, List.ofFn fun i : Fin (2 ^ s.numQubits) =>
          if bitAt s.numQubits i.val q = (if u < s.marginal q 0 then 0 else 1)
          then s.amp i.val * ((1 / Real.sqrt (if u < s.marginal q 0
                  then s.marginal q 0 else s.marginal q 1) : ℝ) : ℂ)
          else 0⟩) ∧
    normSqSum (List.ofFn fun i : Fin (2 ^ s.numQubits) =>
      if bitAt s.numQubits i.val q = (if u < s.marginal q 0 then 0 else 1)
      then s.amp i.val * ((1 / Real.sqrt (if u < s.marginal q 0
              then s.marginal q 0 else s.marginal q 1) : ℝ) : ℂ)
      else 0) = 1 := by
  have hpart := marginal_partition s q
  rw [hnorm] at hpart
  have hprobs : s.getQubitMeasurementProbabilities q
      = .ok (s.marginal q 0, s.marginal q 1) := by
    rw [QuantumState.getQubitMeasurementProbabilities, if_neg (by omega)]
  by_cases hc : u < s.marginal q 0
  · have hp : 0 < s.marginal q 0 := lt_of_le_of_lt hu0 hc
    have hnz : normSqSum (List.ofFn fun i : Fin (2 ^ s.numQubits) =>
        if bitAt s.numQubits i.val q = 0
        then s.amp i.val * ((1 / Real.sqrt (s.marginal q 0) : ℝ) : ℂ) else 0) = 1 := by
      rw [normSqSum_project s q 0 _ hlen, div_pow, one_pow,
        Real.sq_sqrt (le_of_lt hp), one_div, mul_inv_cancel₀ (ne_of_gt hp)]
    constructor
    · rw [QuantumOperations.measureQubit, hprobs]
      simp only [if_pos hc, if_true]
      rw [make_of_normalized s.numQubits _ h5 (by rw [List.length_ofFn]) hnz]
      rfl
    · simp only [if_pos hc]
      exact hnz
  · have hle : s.marginal q 0 ≤ u := le_of_not_lt hc
    have hp : 0 < s.marginal q 1 := by linarith
    have hnz : normSqSum (List.ofFn fun i : Fin (2 ^ s.numQubits) =>
        if bitAt s.numQubits i.val q = 1
        then s.amp i.val * ((1 / Real.sqrt (s.marginal q 1) : ℝ) : ℂ) else 0) = 1 := by
      rw [normSqSum_project s q 1 _ hlen, div_pow, one_pow,
        Real.sq_sqrt (le_of_lt hp), one_div, mul_inv_cancel₀ (ne_of_gt hp)]
    constructor
    · rw [QuantumOperations.measureQubit, hprobs]
      simp only [if_neg hc, if_neg (by norm_num : ¬ (1:ℕ) = 0)]
      rw [make_of_normalized s.numQubits _ h5 (by rw [List.length_ofFn]) hnz]
      rfl
    · simp only [if_neg hc]
      exact hnz

/-- Witness for C7: measuring qubit 0 of the valid state `|0⟩` at sample
`1/2`. -/
theorem measureQubit_spec_witness :
    QuantumOperations.measureQubit ⟨1, [1, 0]⟩ 0 (1 / 2) =
      .ok (if (1 / 2 : ℝ) < (⟨1, [1, 0]⟩ : QuantumState).marginal 0 0 then 0 else 1,
        ⟨1, List.ofFn fun i : Fin (2 ^ 1) =>
          if bitAt 1 i.val 0
              = (if (1 / 2 : ℝ) < (⟨1, [1, 0]⟩ : QuantumState).marginal 0 0 then 0 else 1)
          then (⟨1, [1, 0]⟩ : QuantumState).amp i.val *
            ((1 / Real.sqrt (if (1 / 2 : ℝ) < (⟨1, [1, 0]⟩ : QuantumState).marginal 0 0
                then (⟨1, [1, 0]⟩ : QuantumState).marginal 0 0
                else (⟨1, [1, 0]⟩ : QuantumState).marginal 0 1) : ℝ) : ℂ)
          else 0⟩) ∧
    normSqSum (List.ofFn fun i : Fin (2 ^ 1) =>
      if bitAt 1 i.val 0
          = (if (1 / 2 : ℝ) < (⟨1, [1, 0]⟩ : QuantumState).marginal 0 0 then 0 else 1)
      then (⟨1, [1, 0]⟩ : QuantumState).amp i.val *
        ((1 / Real.sqrt (if (1 / 2 : ℝ) < (⟨1, [1, 0]⟩ : QuantumState).marginal 0 0
            then (⟨1, [1, 0]⟩ : QuantumState).marginal 0 0
            else (⟨1, [1, 0]⟩ : QuantumState).marginal 0 1) : ℝ) : ℂ)
      else 0) = 1 :=
  measureQubit_spec ⟨1, [1, 0]⟩ 0 (1 / 2) (by norm_num) (by simp) (by simp)
    (by norm_num) (by norm_num) (by norm_num)

/-! ### executeCircuit -/

lemma execList_ok : ∀ (elems : List CircuitElement) (sim : SimState) (s2 : QuantumState),
    applyAll sim.currentState elems = .ok s2 →
    ∃ t : List QuantumState, t.length = elems.length ∧
      execList sim elems =
        ({ numQubits := sim.numQubits, currentState := s2,
           stateHistory := sim.stateHistory ++ t,
           executionLog := sim.executionLog ++
             elems.map fun e => appliedLine e.gate e.targetQubits }, none)
  | [], sim, s2, h => by
      rw [applyAll] at h
      injection h with h
      subst h
      refine ⟨[], rfl, ?_⟩
      rw [execList]
      cases sim
      simp
  | e :: rest, sim, s2, h => by
      rw [applyAll] at h
      rcases hg : QuantumOperations.applyGate sim.currentState e.gate e.targetQubits with err | s1
      · rw [hg] at h
        exact absurd h (by simp)
      · rw [hg] at h
        have hsg : simApplyGate sim e.gate e.targetQubits =
            ((⟨sim.numQubits, s1, sim.stateHistory ++ [s1],
              sim.executionLog ++ [appliedLine e.gate e.targetQubits]⟩ : SimState), none) := by
          rw [simApplyGate, hg]
        obtain ⟨t, htl, hrun⟩ := execList_ok rest
          ⟨sim.numQubits, s1, sim.stateHistory ++ [s1],
            sim.executionLog ++ [appliedLine e.gate e.targetQubits]⟩ s2 h
        refine ⟨s1 :: t, by simp [htl], ?_⟩
        rw [execList, hsg]
        simp only [hrun]
        simp

lemma cle_trans : ∀ a b c : CircuitElement,
    (decide (a.position ≤ b.position)) = true → (decide (b.position ≤ c.position)) = true →
    (decide (a.position ≤ c.position)) = true := by
  intro a b c h1 h2
  simp only [decide_eq_true_eq] at *
  omega

lemma cle_total : ∀ a b : CircuitElement,
    ((decide (a.position ≤ b.position)) || (decide (b.position ≤ a.position))) = true := by
  intro a b
  simp only [Bool.or_eq_true, decide_eq_true_eq]
  omega

lemma sortCircuit_filter_eq (circuit : List CircuitElement) (p : ℤ) :
    (sortCircuit circuit).filter (fun e => e.position = p)
      = circuit.filter (fun e => e.position = p) := by
  have hsub : (circuit.filter fun e => e.position = p).Sublist (sortCircuit circuit) := by
    refine List.sublist_mergeSort cle_trans cle_total ?_ (List.filter_sublist circuit)
    refine List.pairwise_of_forall_mem_list fun a ha b hb => ?_
    have hpa := (List.mem_filter.mp ha).2
    have hpb := (List.mem_filter.mp hb).2
    simp only [decide_eq_true_eq] at hpa hpb ⊢
    omega
  have hsub2 : (circuit.filter fun e => e.position = p).Sublist
      ((sortCircuit circuit).filter fun e => e.position = p) := by
    have heq : ((circuit.filter fun e => e.position = p).filter fun e => e.position = p)
        = (circuit.filter fun e => e.position = p) := by
      rw [List.filter_eq_self]
      intro a ha
      exact (List.mem_filter.mp ha).2
    have h1 := List.Sublist.filter (fun e => decide (e.position = p)) hsub
    rw [heq] at h1
    exact h1
  have hperm : ((sortCircuit circuit).filter fun e => e.position = p).Perm
      (circuit.filter fun e => e.position = p) :=
    List.Perm.filter _ (List.mergeSort_perm circuit _)
  exact (List.Sublist.eq_of_length hsub2 hperm.length_eq.symm).symm

lemma applyGate_X_pair (a0 a1 : ℂ) :
    QuantumOperations.applyGate ⟨1, [a0, a1]⟩ PauliXGate [0] =
      QuantumState.make 1 (some [a1, a0]) := by
  rw [QuantumOperations.applyGate, if_neg (by simp [PauliXGate]),
    if_pos (show PauliXGate.qubits = 1 from rfl)]
  exact applyX_pair a0 a1

/-- C8: when every application succeeds, `executeCircuit` extends the
execution log with exactly one `applyGate` line per element of the
position-sorted circuit, in that order; and the sorted circuit is a
permutation of the input that is sorted by position ascending and stable
(elements of equal position keep their original relative order). -/
theorem executeCircuit_ordering (sim : SimState) (circuit : List CircuitElement)
    (s2 : QuantumState)
    (h : applyAll sim.currentState (sortCircuit circuit) = .ok s2) :
    ((executeCircuit sim circuit).1.executionLog =
        sim.executionLog ++
          (sortCircuit circuit).map fun e => appliedLine e.gate e.targetQubits) ∧
    (sortCircuit circuit).Perm circuit ∧
    (sortCircuit circuit).Pairwise (fun a b => a.position ≤ b.position) ∧
    (∀ p : ℤ, (sortCircuit circuit).filter (fun e => e.position = p)
      = circuit.filter (fun e => e.position = p)) := by
  obtain ⟨t, htl, hrun⟩ := execList_ok (sortCircuit circuit) sim s2 h
  refine ⟨?_, List.mergeSort_perm circuit _, ?_, sortCircuit_filter_eq circuit⟩
  · rw [executeCircuit, hrun]
  · have hs := List.sorted_mergeSort cle_trans cle_total circuit
    exact hs.imp fun hab => decide_eq_true_eq.mp hab

/-- Witness for C8: a 1-qubit session executing two Pauli-X elements supplied
with positions 2 and 1 out of order. -/
theorem executeCircuit_ordering_witness :
    applyAll ((⟨1, ⟨1, [1, 0]⟩, [⟨1, [1, 0]⟩], [initLine 1]⟩ : SimState)).currentState
      (sortCircuit [⟨PauliXGate, [0], 2⟩, ⟨PauliXGate, [0], 1⟩]) = .ok ⟨1, [1, 0]⟩ ∧
    (executeCircuit ⟨1, ⟨1, [1, 0]⟩, [⟨1, [1, 0]⟩], [initLine 1]⟩
        [⟨PauliXGate, [0], 2⟩, ⟨PauliXGate, [0], 1⟩]).1.executionLog =
      (⟨1, ⟨1, [1, 0]⟩, [⟨1, [1, 0]⟩], [initLine 1]⟩ : SimState).executionLog ++
        (sortCircuit [⟨PauliXGate, [0], 2⟩, ⟨PauliXGate, [0], 1⟩]).map
          fun e => appliedLine e.gate e.targetQubits := by
  have hs : sortCircuit [(⟨PauliXGate, [0], 2⟩ : CircuitElement), ⟨PauliXGate, [0], 1⟩]
      = [⟨PauliXGate, [0], 1⟩, ⟨PauliXGate, [0], 2⟩] := by
    simp [sortCircuit, List.mergeSort, List.splitInTwo, List.merge]
  have h1 : QuantumOperations.applyGate ⟨1, [1, 0]⟩ PauliXGate [0] = .ok ⟨1, [0, 1]⟩ := by
    rw [applyGate_X_pair, make_of_normalized 1 _ (by norm_num) (by simp) (by simp)]
  have h2 : QuantumOperations.applyGate ⟨1, [0, 1]⟩ PauliXGate [0] = .ok ⟨1, [1, 0]⟩ := by
    rw [applyGate_X_pair, make_of_normalized 1 _ (by norm_num) (by simp) (by simp)]
  have h : applyAll ((⟨1, ⟨1, [1, 0]⟩, [⟨1, [1, 0]⟩], [initLine 1]⟩ : SimState)).currentState
      (sortCircuit [⟨PauliXGate, [0], 2⟩, ⟨PauliXGate, [0], 1⟩]) = .ok ⟨1, [1, 0]⟩ := by
    rw [hs]
    simp [applyAll, h1, h2]
  exact ⟨h, (executeCircuit_ordering _ _ _ h).1⟩

/-- C10: `executeCircuit` does not reinitialize the session: the sorted
circuit is applied starting from the session's existing current state (not
`|0...0⟩`), and the returned history and log extend everything accumulated so
far (the prior history is a prefix and the prior log is extended with one
line per applied element); consequently two consecutive `executeCircuit`
calls compose. -/
theorem executeCircuit_accumulates :
    (∀ (sim : SimState) (circuit : List CircuitElement) (s2 : QuantumState),
        applyAll sim.currentState (sortCircuit circuit) = .ok s2 →
        ∃ (sim2 : SimState) (r : SimulationResult),
          executeCircuit sim circuit = (sim2, .ok r) ∧
          r.finalState = s2 ∧ sim2.currentState = s2 ∧
          (∃ t : List QuantumState, t.length = (sortCircuit circuit).length ∧
            r.stateHistory = sim.stateHistory ++ t) ∧
          r.executionLog = sim.executionLog ++
            (sortCircuit circuit).map fun e => appliedLine e.gate e.targetQubits) ∧
    (∀ (sim : SimState) (c1 c2 : List CircuitElement) (s1 s2 : QuantumState),
        applyAll sim.currentState (sortCircuit c1) = .ok s1 →
        applyAll s1 (sortCircuit c2) = .ok s2 →
        (executeCircuit (executeCircuit sim c1).1 c2).1.currentState = s2 ∧
        (executeCircuit (executeCircuit sim c1).1 c2).1.executionLog =
          sim.executionLog ++
            ((sortCircuit c1).map fun e => appliedLine e.gate e.targetQubits) ++
            ((sortCircuit c2).map fun e => appliedLine e.gate e.targetQubits)) := by
  have main : ∀ (sim : SimState) (circuit : List CircuitElement) (s2 : QuantumState),
      applyAll sim.currentState (sortCircuit circuit) = .ok s2 →
      ∃ (sim2 : SimState) (r : SimulationResult),
        executeCircuit sim circuit = (sim2, .ok r) ∧
        r.finalState = s2 ∧ sim2.currentState = s2 ∧
        (∃ t : List QuantumState, t.length = (sortCircuit circuit).length ∧
          r.stateHistory = sim.stateHistory ++ t) ∧
        r.executionLog = sim.executionLog ++
          (sortCircuit circuit).map fun e => appliedLine e.gate e.targetQubits := by
    intro sim circuit s2 h
    obtain ⟨t, htl, hrun⟩ := execList_ok (sortCircuit circuit) sim s2 h
    refine ⟨⟨sim.numQubits, s2, sim.stateHistory ++ t,
        sim.executionLog ++ (sortCircuit circuit).map fun e => appliedLine e.gate e.targetQubits⟩,
      ⟨s2, s2.getMeasurementProbabilities, sim.stateHistory ++ t,
        sim.executionLog ++ (sortCircuit circuit).map fun e => appliedLine e.gate e.targetQubits⟩,
      ?_, rfl, rfl, ⟨t, htl, rfl⟩, rfl⟩
    rw [executeCircuit, hrun]
  refine ⟨main, ?_⟩
  intro sim c1 c2 s1 s2 h1 h2
  obtain ⟨sim2, r1, hexec1, hfin1, hcur1, hist1, hlog1⟩ := main sim c1 s1 h1
  have h2b : applyAll sim2.currentState (sortCircuit c2) = .ok s2 := by
    rw [hcur1]
    exact h2
  obtain ⟨sim3, r2, hexec2, hfin2, hcur2, hist2, hlog2⟩ := main sim2 c2 s2 h2b
  rw [hexec1]
  constructor
  · rw [show (sim2, Except.ok r1).1 = sim2 from rfl, hexec2,
      show (sim3, Except.ok r2).1 = sim3 from rfl]
    exact hcur2
  · rw [show (sim2, Except.ok r1).1 = sim2 from rfl, hexec2,
      show (sim3, Except.ok r2).1 = sim3 from rfl]
    obtain ⟨t2, ht2l, ht2⟩ := hist2
    have hlog3 : sim3.executionLog = sim2.executionLog ++
        (sortCircuit c2).map fun e => appliedLine e.gate e.targetQubits := by
      obtain ⟨tq, htql, hq⟩ := execList_ok (sortCircuit c2) sim2 s2 h2b
      rw [executeCircuit, hq] at hexec2
      injection hexec2 with he1 he2
      rw [← he1]
    have hlog4 : sim2.executionLog = sim.executionLog ++
        (sortCircuit c1).map fun e => appliedLine e.gate e.targetQubits := by
      obtain ⟨tq, htql, hq⟩ := execList_ok (sortCircuit c1) sim s1 h1
      rw [executeCircuit, hq] at hexec1
      injection hexec1 with he1 he2
      rw [← he1]
    rw [hlog3, hlog4, List.append_assoc]

/-- Witness for C10: two consecutive single-element circuits on a 1-qubit
session compose. -/
theorem executeCircuit_accumulates_witness :
    applyAll ((⟨1, ⟨1, [1, 0]⟩, [⟨1, [1, 0]⟩], [initLine 1]⟩ : SimState)).currentState
      (sortCircuit [⟨PauliXGate, [0], 5⟩]) = .ok ⟨1, [0, 1]⟩ ∧
    applyAll ⟨1, [0, 1]⟩ (sortCircuit [⟨PauliXGate, [0], 7⟩]) = .ok ⟨1, [1, 0]⟩ ∧
    (executeCircuit (executeCircuit ⟨1, ⟨1, [1, 0]⟩, [⟨1, [1, 0]⟩], [initLine 1]⟩
        [⟨PauliXGate, [0], 5⟩]).1 [⟨PauliXGate, [0], 7⟩]).1.currentState = ⟨1, [1, 0]⟩ := by
  have h1 : QuantumOperations.applyGate ⟨1, [1, 0]⟩ PauliXGate [0] = .ok ⟨1, [0, 1]⟩ := by
    rw [applyGate_X_pair, make_of_normalized 1 _ (by norm_num) (by simp) (by simp)]
  have h2 : QuantumOperations.applyGate ⟨1, [0, 1]⟩ PauliXGate [0] = .ok ⟨1, [1, 0]⟩ := by
    rw [applyGate_X_pair, make_of_normalized 1 _ (by norm_num) (by simp) (by simp)]
  have ha : applyAll ((⟨1, ⟨1, [1, 0]⟩, [⟨1, [1, 0]⟩], [initLine 1]⟩ : SimState)).currentState
      (sortCircuit [⟨PauliXGate, [0], 5⟩]) = .ok ⟨1, [0, 1]⟩ := by
    rw [sortCircuit, List.mergeSort_singleton]
    simp [applyAll, h1]
  have hb : applyAll ⟨1, [0, 1]⟩ (sortCircuit [⟨PauliXGate, [0], 7⟩]) = .ok ⟨1, [1, 0]⟩ := by
    rw [sortCircuit, List.mergeSort_singleton]
    simp [applyAll, h2]
  exact ⟨ha, hb, (executeCircuit_accumulates.2 _ _ _ _ _ ha hb).1⟩

/-- Witness for C5 (amended) at qubit counts 6 and 0. -/
theorem qubit_bound_amended_witness :
    QuantumState.make 6 none = .error .maxQubitsExceeded ∧
    SimState.init 0 = .error .invalidQubitCount ∧
    SimState.init 6 = .error .invalidQubitCount :=
  ⟨qubit_bound_amended.1 6 none (by norm_num),
   qubit_bound_amended.2 0 (Or.inl (by norm_num)),
   qubit_bound_amended.2 6 (Or.inr (by norm_num))⟩

end QCS
